import Mathlib

/-!
Response-side passes of the proxy (`lib/http-proxy/passes/web-outgoing.js`)

A shallow embedding of the four functions of the pass array
(`removeChunked`, `setConnection`, `writeHeaders`, `writeStatusCode`) and of the
JavaScript objects they read and mutate.

Conventions of the embedding.

* A JavaScript string is a Lean `String`; one `Char` stands for one UTF-16 code
  unit (header text delivered by the HTTP parser is Latin-1, where the two agree).
* A JavaScript object used as a header table is an association list in key order;
  `obj[k]` is the first entry named `k`, `delete obj[k]` removes every entry named
  `k`, and `obj[k] = v` overwrites the entry in place or appends a new one.
* The functions mutate `res` and `proxyRes` and return nothing; here each one takes
  `req`, `res`, `proxyRes` and returns a `Completion` holding the two mutated
  objects, either after a normal return or at the point where an exception left
  the function.
-/

namespace WebOutgoing

/-! ## Header tables -/

/-- Value of a response header: a string, or an array of strings (`set-cookie`). -/
inductive HeaderValue where
  | str (s : String)
  | arr (xs : List String)
  deriving DecidableEq, Repr

/-- JavaScript truthiness of a header value: the empty string is falsy, every
other string and every array (the empty one too) is truthy. -/
def HeaderValue.truthy : HeaderValue → Bool
  | .str s => decide (s ≠ "")
  | .arr _ => true

/-- The `.length` property of a string or of an array. -/
def HeaderValue.length : HeaderValue → Nat
  | .str s => s.length
  | .arr xs => xs.length

/-- `obj[k]`: the value of the first entry named `k`, `none` for `undefined`. -/
def lookup {α : Type} (k : String) : List (String × α) → Option α
  | [] => none
  | (k', v) :: t => if k' = k then some v else lookup k t

/-- `delete obj[k]`. -/
def remove {α : Type} (k : String) : List (String × α) → List (String × α)
  | [] => []
  | (k', v) :: t => if k' = k then remove k t else (k', v) :: remove k t

/-- `obj[k] = v`: overwrite in place when `k` is a key, append otherwise. -/
def assign {α : Type} (k : String) (v : α) : List (String × α) → List (String × α)
  | [] => [(k, v)]
  | (k', v') :: t => if k' = k then (k, v) :: t else (k', v') :: assign k v t

/-- `Object.keys(obj)`. -/
def keys {α : Type} (h : List (String × α)) : List String :=
  h.map Prod.fst

/-! ## The three objects of an exchange -/

/-- The client request (`req`): the passes read `httpVersion` and `headers`. -/
structure IncomingMessage where
  httpVersion : Option String
  headers : List (String × String)
  deriving DecidableEq, Repr

/-- The upstream response (`proxyRes`). -/
structure ProxyResponse where
  statusCode : Nat
  headers : List (String × HeaderValue)
  deriving DecidableEq, Repr

/-- One call made on the outgoing response. -/
inductive WriterOp where
  | setHeader (name : String) (value : HeaderValue)
  | writeHead (statusCode : Nat)
  deriving DecidableEq, Repr

/-- Modelled from the spec: the outgoing response writer (`res`), an object of the
HTTP library that the pass file only calls. It holds the headers set so far, the
committed status if any, and the calls received in order. -/
structure ServerResponse where
  headers : List (String × HeaderValue)
  status : Option Nat
  calls : List WriterOp
  deriving DecidableEq, Repr

/-- Modelled from the spec: `res.setHeader(name, value)` sets a header by name,
overwriting the prior value for that name. -/
def ServerResponse.setHeader (res : ServerResponse) (name : String) (value : HeaderValue) :
    ServerResponse :=
  { res with headers := assign name value res.headers,
             calls := res.calls ++ [WriterOp.setHeader name value] }

/-- Modelled from the spec: `res.writeHead(statusCode)` commits the status line,
with no headers block attached. -/
def ServerResponse.writeHead (res : ServerResponse) (statusCode : Nat) : ServerResponse :=
  { res with status := some statusCode,
             calls := res.calls ++ [WriterOp.writeHead statusCode] }

/-- A JavaScript exception. -/
inductive JsError where
  | syntaxError
  deriving DecidableEq, Repr

/-- How a pass ends: by returning, or by an exception; in both cases with the state
in which it left `res` and `proxyRes`. -/
inductive Completion where
  | normal (res : ServerResponse) (proxyRes : ProxyResponse)
  | throw (e : JsError) (res : ServerResponse) (proxyRes : ProxyResponse)
  deriving DecidableEq, Repr

/-- The outgoing response as the pass left it. -/
def Completion.res : Completion → ServerResponse
  | .normal r _ => r
  | .throw _ r _ => r

/-- The upstream response as the pass left it. -/
def Completion.proxyRes : Completion → ProxyResponse
  | .normal _ p => p
  | .throw _ _ p => p

/-- Whether the pass returned normally. -/
def Completion.isNormal : Completion → Bool
  | .normal _ _ => true
  | .throw _ _ _ => false

/-- The JavaScript `a || b` on an optional string: `b` when `a` is `undefined` or
the empty string. -/
def orElse (a : Option String) (b : String) : String :=
  match a with
  | some s => if s ≠ "" then s else b
  | none => b

/-! ## `removeChunked` and `setConnection` -/

/-- `removeChunked(req, res, proxyRes)`. -/
def removeChunked (req : IncomingMessage) (res : ServerResponse) (proxyRes : ProxyResponse) :
    Completion :=
  if req.httpVersion = some "1.0" then
    .normal res { proxyRes with headers := remove "transfer-encoding" proxyRes.headers }
  else
    .normal res proxyRes

/-- `!proxyRes.headers.connection`. -/
def falsy (v : Option HeaderValue) : Bool :=
  match v with
  | some x => !x.truthy
  | none => true

/-- `setConnection(req, res, proxyRes)`. -/
def setConnection (req : IncomingMessage) (res : ServerResponse) (proxyRes : ProxyResponse) :
    Completion :=
  if req.httpVersion = some "1.0" then
    .normal res { proxyRes with
      headers := assign "connection"
        (HeaderValue.str (orElse (lookup "connection" req.headers) "close")) proxyRes.headers }
  else if falsy (lookup "connection" proxyRes.headers) then
    .normal res { proxyRes with
      headers := assign "connection"
        (HeaderValue.str (orElse (lookup "connection" req.headers) "keep-alive")) proxyRes.headers }
  else
    .normal res proxyRes

/-! ## Regular expressions

`writeHeaders` builds two `RegExp` objects: the literal `/:\d+$/` and
`new RegExp(target, 'g')`, whose pattern is a request header. The part of the
pattern language modelled here is: alternation, capturing and `(?:` groups, the
quantifiers `*`, `+`, `?` and their lazy forms, `.`, `^`, `$`, character classes
without escapes, the escapes `\d \D \w \W \t \n \v \f \r`, and a backslash before a
syntax character or `/`. What `new RegExp` does with any other pattern is a
parameter of `writeHeaders` (`Extension`). Matching follows the backtracking
semantics of the language definition: a matcher returns the states it can end in,
in order of priority, and the first one is the match.
-/

namespace RegExp

/-- Member of a character class. -/
inductive ClassItem where
  | single (c : Char)
  | range (lo hi : Char)
  | digit
  | word
  deriving DecidableEq, Repr

/-- Pattern tree. `group` is a capturing group with its number (from 1); `rep` is a
quantified atom with the number of capturing groups to its left (`parenIndex`) and
inside it (`parenCount`). -/
inductive Node where
  | empty
  | char (c : Char)
  | dot
  | cls (negated : Bool) (items : List ClassItem)
  | bol
  | eol
  | seq (a b : Node)
  | alt (a b : Node)
  | group (index : Nat) (a : Node)
  | rep (min : Nat) (max : Option Nat) (greedy : Bool) (parenIndex parenCount : Nat) (a : Node)
  deriving DecidableEq, Repr

/-- The characters with a meaning of their own in a pattern. -/
def isSyntaxChar (c : Char) : Bool :=
  c = '^' || c = '$' || c = Char.ofNat 92 || c = '.' || c = '*' || c = '+' || c = '?' ||
  c = '(' || c = ')' || c = '[' || c = ']' || c = Char.ofNat 123 || c = Char.ofNat 125 ||
  c = '|'

/-- Outcome of reading a pattern: a tree, a `SyntaxError`, or a pattern outside the
modelled part of the language. -/
inductive Parsed (α : Type) where
  | ok (a : α)
  | invalid
  | foreign
  deriving DecidableEq, Repr

/-- Members of a character class, read up to and including the closing `]`. The
first argument bounds the recursion; `input.length + 1` is enough. -/
def classItems : Nat → List Char → Parsed (List ClassItem × List Char)
  | 0, _ => .foreign
  | _ + 1, [] => .invalid
  | fuel + 1, c :: t =>
    if c = ']' then .ok ([], t)
    else if c = Char.ofNat 92 then .foreign
    else
      let isRange : Bool := match t with
        | d :: hi :: _ => decide (d = '-' ∧ hi ≠ ']')
        | _ => false
      if isRange then
        let hi := (t.drop 1).headD c
        if hi = Char.ofNat 92 then .foreign
        else if c.toNat ≤ hi.toNat then
          match classItems fuel (t.drop 2) with
          | .ok (items, rest) => .ok (ClassItem.range c hi :: items, rest)
          | .invalid => .invalid
          | .foreign => .foreign
        else .invalid
      else
        match classItems fuel t with
        | .ok (items, rest) => .ok (ClassItem.single c :: items, rest)
        | .invalid => .invalid
        | .foreign => .foreign

/-- The atom written `\c`, for the escapes that are modelled. -/
def escapeAtom (c : Char) : Option Node :=
  if c = 'd' then some (.cls false [.digit])
  else if c = 'D' then some (.cls true [.digit])
  else if c = 'w' then some (.cls false [.word])
  else if c = 'W' then some (.cls true [.word])
  else if c = 't' then some (.char (Char.ofNat 9))
  else if c = 'n' then some (.char (Char.ofNat 10))
  else if c = 'v' then some (.char (Char.ofNat 11))
  else if c = 'f' then some (.char (Char.ofNat 12))
  else if c = 'r' then some (.char (Char.ofNat 13))
  else if isSyntaxChar c || c = '/' then some (.char c)
  else none

/-- Applies the quantifier that follows an atom, if there is one. -/
def quantified (a : Node) (parenIndex parenCount : Nat) (input : List Char) :
    Node × List Char :=
  match input with
  | [] => (a, [])
  | q :: t =>
    let bounds : Option (Nat × Option Nat) :=
      if q = '*' then some (0, none)
      else if q = '+' then some (1, none)
      else if q = '?' then some (0, some 1)
      else none
    match bounds with
    | none => (a, q :: t)
    | some (min, max) =>
      match t with
      | l :: t2 =>
        if l = '?' then (.rep min max false parenIndex parenCount a, t2)
        else (.rep min max true parenIndex parenCount a, l :: t2)
      | [] => (.rep min max true parenIndex parenCount a, [])

/-- A disjunction read so far: its first alternative, the later ones, the input left
and the number of capturing groups opened so far. -/
structure Piece where
  first : Node
  others : Option Node
  rest : List Char
  groups : Nat
  deriving DecidableEq, Repr

/-- The tree of the disjunction. -/
def Piece.disjunction (p : Piece) : Node :=
  match p.others with
  | none => p.first
  | some o => .alt p.first o

/-- Puts an atom in front of the disjunction that follows it. -/
def Piece.after (a : Node) : Parsed Piece → Parsed Piece
  | .ok p => .ok { p with first := .seq a p.first }
  | .invalid => .invalid
  | .foreign => .foreign

/-- Reads a disjunction up to the end of the input or an unmatched `)`. The first
argument bounds the recursion; `input.length + 1` is enough, since every call
consumes a character. -/
def parseDisjunction : Nat → List Char → Nat → Parsed Piece
  | 0, _, _ => .foreign
  | _ + 1, [], groups => .ok ⟨.empty, none, [], groups⟩
  | fuel + 1, c :: t, groups =>
    if c = ')' then .ok ⟨.empty, none, c :: t, groups⟩
    else if c = '|' then
      match parseDisjunction fuel t groups with
      | .ok p => .ok ⟨.empty, some p.disjunction, p.rest, p.groups⟩
      | .invalid => .invalid
      | .foreign => .foreign
    else if c = '*' ∨ c = '+' ∨ c = '?' then .invalid
    else if c = '^' then Piece.after .bol (parseDisjunction fuel t groups)
    else if c = '$' then Piece.after .eol (parseDisjunction fuel t groups)
    else if c = '(' then
      match t with
      | '?' :: ':' :: t2 =>
        match parseDisjunction fuel t2 groups with
        | .ok inner =>
          match inner.rest with
          | _ :: t3 =>
            let (atom, rest) := quantified inner.disjunction groups (inner.groups - groups) t3
            Piece.after atom (parseDisjunction fuel rest inner.groups)
          | [] => .invalid
        | .invalid => .invalid
        | .foreign => .foreign
      | '?' :: _ => .foreign
      | _ =>
        match parseDisjunction fuel t (groups + 1) with
        | .ok inner =>
          match inner.rest with
          | _ :: t3 =>
            let (atom, rest) := quantified (.group (groups + 1) inner.disjunction) groups
              (inner.groups - groups) t3
            Piece.after atom (parseDisjunction fuel rest inner.groups)
          | [] => .invalid
        | .invalid => .invalid
        | .foreign => .foreign
    else if c = '[' then
      let negated : Bool := match t with
        | n :: _ => decide (n = '^')
        | [] => false
      match classItems fuel (if negated then t.drop 1 else t) with
      | .ok (items, t3) =>
        let (atom, rest) := quantified (.cls negated items) groups 0 t3
        Piece.after atom (parseDisjunction fuel rest groups)
      | .invalid => .invalid
      | .foreign => .foreign
    else if c = Char.ofNat 92 then
      match t with
      | [] => .invalid
      | e :: t3 =>
        match escapeAtom e with
        | some a =>
          let (atom, rest) := quantified a groups 0 t3
          Piece.after atom (parseDisjunction fuel rest groups)
        | none => .foreign
    else if c = ']' ∨ c = Char.ofNat 123 ∨ c = Char.ofNat 125 then .foreign
    else
      let (atom, rest) := quantified (if c = '.' then .dot else .char c) groups 0 t
      Piece.after atom (parseDisjunction fuel rest groups)

/-- Reads a whole pattern: the tree and the number of capturing groups. -/
def parse (pattern : List Char) : Parsed (Node × Nat) :=
  match parseDisjunction (pattern.length + 1) pattern 0 with
  | .ok p => if p.rest = [] then .ok (p.disjunction, p.groups) else .invalid
  | .invalid => .invalid
  | .foreign => .foreign

/-- State of a match in progress: the index reached in the input, the input from
there on, and the captures recorded so far (group number, captured text; the most
recent entry for a number counts, a number without entry is `undefined`). -/
structure MState where
  endIndex : Nat
  rest : List Char
  captures : List (Nat × List Char)
  deriving DecidableEq, Repr

/-- Whether a character belongs to a class member. -/
def ClassItem.mem (ch : Char) : ClassItem → Bool
  | .single c => ch = c
  | .range lo hi => lo.toNat ≤ ch.toNat && ch.toNat ≤ hi.toNat
  | .digit => '0'.toNat ≤ ch.toNat && ch.toNat ≤ '9'.toNat
  | .word =>
    ('a'.toNat ≤ ch.toNat && ch.toNat ≤ 'z'.toNat) ||
    ('A'.toNat ≤ ch.toNat && ch.toNat ≤ 'Z'.toNat) ||
    ('0'.toNat ≤ ch.toNat && ch.toNat ≤ '9'.toNat) || ch = '_'

/-- Line terminators, which `.` does not match. -/
def isLineTerminator (ch : Char) : Bool :=
  ch.toNat = 10 || ch.toNat = 13 || ch.toNat = 0x2028 || ch.toNat = 0x2029

/-- Matches one character satisfying `p`. -/
def oneChar (p : Char → Bool) (x : MState) : List MState :=
  match x.rest with
  | [] => []
  | ch :: t => if p ch then [⟨x.endIndex + 1, t, x.captures⟩] else []

/-- Forgets the captures of the groups numbered `parenIndex + 1` to
`parenIndex + parenCount`. -/
def clearCaptures (parenIndex parenCount : Nat) (x : MState) : MState :=
  { x with captures :=
      x.captures.filter (fun e => !(decide (parenIndex < e.1) && decide (e.1 ≤ parenIndex + parenCount))) }

/-- The repeat matcher of the language definition for an atom with matcher `m`: the
states in which `min` to `max` repetitions from `x` end, in order of priority. An
iteration that matches the empty string once `min` is exhausted is rejected. The
first argument bounds the recursion; `min + x.rest.length + 1` is enough, since every
iteration lowers `min` or consumes a character. -/
def repeatMatcher (m : MState → List MState) (parenIndex parenCount : Nat) (greedy : Bool) :
    Nat → Nat → Option Nat → MState → List MState
  | 0, _, _, _ => []
  | fuel + 1, min, max, x =>
    if max = some 0 then [x]
    else
      let iteration := (m (clearCaptures parenIndex parenCount x)).flatMap (fun y =>
        if min = 0 ∧ y.endIndex = x.endIndex then []
        else repeatMatcher m parenIndex parenCount greedy fuel (min - 1) (max.map (· - 1)) y)
      if min ≠ 0 then iteration
      else if greedy then iteration ++ [x]
      else x :: iteration

/-- The end states of a match of the pattern from `x`, in order of priority. -/
def Node.ends : Node → MState → List MState
  | .empty, x => [x]
  | .char c, x => oneChar (fun ch => ch = c) x
  | .dot, x => oneChar (fun ch => !isLineTerminator ch) x
  | .cls negated items, x => oneChar (fun ch => items.any (ClassItem.mem ch) != negated) x
  | .bol, x => if x.endIndex = 0 then [x] else []
  | .eol, x => if x.rest = [] then [x] else []
  | .seq a b, x => (a.ends x).flatMap b.ends
  | .alt a b, x => a.ends x ++ b.ends x
  | .group index a, x =>
    (a.ends x).map (fun y =>
      { y with captures := (index, x.rest.take (y.endIndex - x.endIndex)) :: y.captures })
  | .rep min max greedy parenIndex parenCount a, x =>
    repeatMatcher a.ends parenIndex parenCount greedy (min + x.rest.length + 1) min max x

/-- The match of the pattern that starts at index `index`, where the input
continues with `rest`. -/
def matchAt (node : Node) (index : Nat) (rest : List Char) : Option MState :=
  (node.ends ⟨index, rest, []⟩).head?

/-- The text of capture `n`, empty when the group did not take part in the match. -/
def capture (captures : List (Nat × List Char)) (n : Nat) : List Char :=
  match captures.find? (fun e => e.1 = n) with
  | some e => e.2
  | none => []

/-- Value of a decimal digit. -/
def digitValue (c : Char) : Option Nat :=
  if '0'.toNat ≤ c.toNat ∧ c.toNat ≤ '9'.toNat then some (c.toNat - '0'.toNat) else none

/-- What the scan of a replacement text has just read: nothing pending, a `$`, or
a `$` and one digit. -/
inductive Pending where
  | nothing
  | dollar
  | dollarDigit (d : Char) (n : Nat)
  deriving DecidableEq, Repr

/-- The text for `$n` with one digit `d` of value `n`: capture `n` when the pattern
has a group `n`, the two characters themselves otherwise. -/
def oneDigitRef (captures : List (Nat × List Char)) (groups : Nat) (d : Char) (n : Nat) :
    List Char :=
  if 1 ≤ n ∧ n ≤ groups then capture captures n else ['$', d]

/-- Expansion of a replacement text for one match: `$$` is a dollar sign, `$&` the
matched text, `$` with a backtick the input before the match, `$` with an
apostrophe the input after it, `$nn` and `$n` a capture when the pattern has a group
of that number (two digits are tried before one); any other `$` stands for
itself. `groups` is the number of capturing groups of the pattern. -/
def getSubstitution (matched before after : List Char) (captures : List (Nat × List Char))
    (groups : Nat) : Pending → List Char → List Char
  | .nothing, [] => []
  | .dollar, [] => ['$']
  | .dollarDigit d n, [] => oneDigitRef captures groups d n
  | .nothing, c :: t =>
    if c = '$' then getSubstitution matched before after captures groups .dollar t
    else c :: getSubstitution matched before after captures groups .nothing t
  | .dollar, c :: t =>
    if c = '$' then '$' :: getSubstitution matched before after captures groups .nothing t
    else if c = '&' then
      matched ++ getSubstitution matched before after captures groups .nothing t
    else if c = Char.ofNat 96 then
      before ++ getSubstitution matched before after captures groups .nothing t
    else if c = Char.ofNat 39 then
      after ++ getSubstitution matched before after captures groups .nothing t
    else
      match digitValue c with
      | some n => getSubstitution matched before after captures groups (.dollarDigit c n) t
      | none => '$' :: c :: getSubstitution matched before after captures groups .nothing t
  | .dollarDigit d n, c :: t =>
    match digitValue c with
    | some n2 =>
      if 1 ≤ 10 * n + n2 ∧ 10 * n + n2 ≤ groups then
        capture captures (10 * n + n2) ++
          getSubstitution matched before after captures groups .nothing t
      else if groups < 10 * n + n2 then
        oneDigitRef captures groups d n ++
          c :: getSubstitution matched before after captures groups .nothing t
      else '$' :: d :: c :: getSubstitution matched before after captures groups .nothing t
    | none =>
      oneDigitRef captures groups d n ++
        (if c = '$' then getSubstitution matched before after captures groups .dollar t
         else c :: getSubstitution matched before after captures groups .nothing t)

/-- The replacement for the match that starts after `before`, on input `rest`, and
ends in state `y`. -/
def replacement (groups : Nat) (template before rest : List Char) (y : MState) : List Char :=
  getSubstitution (rest.take (y.endIndex - before.length)) before y.rest y.captures groups
    .nothing template

/-- The method `replace` for a pattern without the `g` flag: the first match, looked
for from index 0 upwards, is replaced. `before` is the input already passed. -/
def replaceFirst (node : Node) (groups : Nat) (template : List Char) :
    List Char → List Char → List Char
  | before, [] =>
    match matchAt node before.length [] with
    | some y => replacement groups template before [] y
    | none => []
  | before, c :: t =>
    match matchAt node before.length (c :: t) with
    | some y => replacement groups template before (c :: t) y ++ y.rest
    | none => c :: replaceFirst node groups template (before ++ [c]) t

/-- The method `replace` for a pattern with the `g` flag: matches are looked for from
left to right, each search starting where the previous match ended, or one
character further when that match was empty; every match is replaced. `skip`
counts the characters of the current match still to be passed, `before` is the
input already passed. -/
def replaceAll (node : Node) (groups : Nat) (template : List Char) :
    Nat → List Char → List Char → List Char
  | _ + 1, _, [] => []
  | skip + 1, before, c :: t => replaceAll node groups template skip (before ++ [c]) t
  | 0, before, [] =>
    match matchAt node before.length [] with
    | some y => replacement groups template before [] y
    | none => []
  | 0, before, c :: t =>
    match matchAt node before.length (c :: t) with
    | some y =>
      replacement groups template before (c :: t) y ++
        (match y.endIndex - before.length with
         | 0 => c :: replaceAll node groups template 0 (before ++ [c]) t
         | k + 1 => replaceAll node groups template k (before ++ [c]) t)
    | none => c :: replaceAll node groups template 0 (before ++ [c]) t

/-- The tree of the literal `/:\d+$/`. -/
def portRe : Node :=
  .seq (.char ':') (.seq (.rep 1 none true 0 0 (.cls false [.digit])) (.seq .eol .empty))

end RegExp

/-! ## `RegExp` objects and `String.prototype.replace` -/

/-- What `new RegExp(pattern, 'g')` does with a pattern outside the modelled part of
the language: it throws (`none`), or it yields an object whose effect under
`text.replace(re, template)` is the given function of `text` and `template`. -/
abbrev Extension := String → Option (String → String → String)

/-- A `RegExp` object with the `g` flag. -/
inductive JsRegExp where
  | modelled (node : RegExp.Node) (groups : Nat)
  | external (replace : String → String → String)

/-- `new RegExp(pattern, 'g')`. -/
def newRegExp (ext : Extension) (pattern : String) : Except JsError JsRegExp :=
  match RegExp.parse pattern.toList with
  | .ok (node, groups) => .ok (.modelled node groups)
  | .invalid => .error .syntaxError
  | .foreign =>
    match ext pattern with
    | some f => .ok (.external f)
    | none => .error .syntaxError

/-- `text.replace(re, template)` for a `RegExp` with the `g` flag. -/
def JsRegExp.replaceIn (re : JsRegExp) (text template : String) : String :=
  match re with
  | .modelled node groups => String.mk (RegExp.replaceAll node groups template.toList 0 [] text.toList)
  | .external f => f text template

/-- `host.replace(/:\d+$/, '')`. -/
def stripPort (host : String) : String :=
  String.mk (RegExp.replaceFirst RegExp.portRe 0 [] [] host.toList)

/-! ## `writeHeaders` and `writeStatusCode` -/

/-- The loop `while (count--) cookies[count] = cookies[count].replace(targetRe, source)`
on an array, with `f` for the replacement; it walks from index `count - 1` down to 0.
(An index outside the array does not occur: `count` starts at the length.) -/
def rewriteLoop (f : String → String) : Nat → List String → List String
  | 0, cookies => cookies
  | count + 1, cookies =>
    rewriteLoop f count
      (match cookies.get? count with
       | some c => cookies.set count (f c)
       | none => cookies)

/-- Lines 60 to 77 of `writeHeaders`: the upstream response after the cookie
rewriting, or the exception thrown by `new RegExp`. The guard `source && target &&
count` fails for an absent or empty header and for an absent or empty `set-cookie`.
When `set-cookie` is a string and not an array, the assignments to its indices
have no effect. -/
def rewriteCookies (ext : Extension) (req : IncomingMessage) (proxyRes : ProxyResponse) :
    Except JsError ProxyResponse :=
  match lookup "host" req.headers, lookup "x-forwarded-host" req.headers,
      lookup "set-cookie" proxyRes.headers with
  | some source, some target, some cookies =>
    if source ≠ "" ∧ target ≠ "" ∧ cookies.length ≠ 0 then
      match newRegExp ext (stripPort target) with
      | .error e => .error e
      | .ok targetRe =>
        match cookies with
        | .arr xs =>
          .ok { proxyRes with
            headers := assign "set-cookie"
              (HeaderValue.arr
                (rewriteLoop (fun c => targetRe.replaceIn c (stripPort source)) xs.length xs))
              proxyRes.headers }
        | .str _ => .ok proxyRes
    else .ok proxyRes
  | _, _, _ => .ok proxyRes

/-- Lines 79 to 81 of `writeHeaders`:
`Object.keys(headers).forEach(key => res.setHeader(key, headers[key]))`. -/
def copyHeaders (res : ServerResponse) (headers : List (String × HeaderValue)) :
    ServerResponse :=
  (keys headers).foldl
    (fun r key =>
      match lookup key headers with
      | some v => r.setHeader key v
      | none => r)
    res

/-- `writeHeaders(req, res, proxyRes)`. -/
def writeHeaders (ext : Extension) (req : IncomingMessage) (res : ServerResponse)
    (proxyRes : ProxyResponse) : Completion :=
  match rewriteCookies ext req proxyRes with
  | .error e => .throw e res proxyRes
  | .ok rewritten => .normal (copyHeaders res rewritten.headers) rewritten

/-- `writeStatusCode(req, res, proxyRes)`. -/
def writeStatusCode (_req : IncomingMessage) (res : ServerResponse) (proxyRes : ProxyResponse) :
    Completion :=
  .normal (res.writeHead proxyRes.statusCode) proxyRes

/-! ## The pass array and its runner -/

/-- A pass: a function of `req`, `res`, `proxyRes`. -/
abbrev Pass := IncomingMessage → ServerResponse → ProxyResponse → Completion

/-- The array of passes, each under the name it is registered with
(`passes[func.name] = func`), in array order. -/
def passes (ext : Extension) : List (String × Pass) :=
  [("removeChunked", removeChunked),
   ("setConnection", setConnection),
   ("writeHeaders", writeHeaders ext),
   ("writeStatusCode", writeStatusCode)]

/-- Runs passes one after the other on the same three objects; an exception leaves
the loop. -/
def runPasses (req : IncomingMessage) : List Pass → ServerResponse → ProxyResponse → Completion
  | [], res, proxyRes => .normal res proxyRes
  | p :: ps, res, proxyRes =>
    match p req res proxyRes with
    | .normal res1 proxyRes1 => runPasses req ps res1 proxyRes1
    | .throw e res1 proxyRes1 => .throw e res1 proxyRes1

/-- Modelled from the spec: `run(request, upstreamResponse, outgoingWriter)`, the
entry point of the proxy engine that executes each registered pass in the fixed
order of the array (the engine is not part of this file). -/
def run (ext : Extension) (req : IncomingMessage) (res : ServerResponse)
    (proxyRes : ProxyResponse) : Completion :=
  runPasses req ((passes ext).map Prod.snd) res proxyRes

/-! ## Literal replacement, as the specification words it -/

/-- Replacement of the literal occurrences of `target` by `source`, read from left
to right: where `target` occurs, `source` is put in its place and the scan goes on
after the occurrence; any other character is kept. `skip` counts the characters of
the current occurrence still to be passed. An empty `target` occurs before every
character and at the end. -/
def substitute (target source : List Char) : Nat → List Char → List Char
  | _ + 1, [] => []
  | skip + 1, _ :: t => substitute target source skip t
  | 0, [] => if target = [] then source else []
  | 0, c :: t =>
    if target.isPrefixOf (c :: t) then
      source ++
        (match target.length with
         | 0 => c :: substitute target source 0 t
         | k + 1 => substitute target source k t)
    else c :: substitute target source 0 t

/-- The text with every literal occurrence of `target` replaced by `source`. -/
def replaceLiteral (target source text : String) : String :=
  String.mk (substitute target.toList source.toList 0 text.toList)

/-- A matcher only moves forward: the index it reaches plus the input left is the
length of the whole input. -/
def RegExp.Advances (m : RegExp.MState → List RegExp.MState) : Prop :=
  ∀ x y, y ∈ m x →
    y.endIndex + y.rest.length = x.endIndex + x.rest.length ∧ x.endIndex ≤ y.endIndex

/-- The tree of a pattern made of ordinary characters only. -/
def RegExp.literal : List Char → RegExp.Node
  | [] => .empty
  | c :: t => .seq (.char c) (RegExp.literal t)

/-! ## Header tables: lemmas -/

theorem lookup_assign_self {α : Type} (k : String) (v : α) (h : List (String × α)) :
    lookup k (assign k v h) = some v := by
  induction h with
  | nil => simp [assign, lookup]
  | cons e t ih =>
    obtain ⟨k', v'⟩ := e
    by_cases hk : k' = k
    · simp [assign, lookup, hk]
    · simp [assign, lookup, hk, ih]

theorem lookup_assign_ne {α : Type} (k k' : String) (v : α) (h : List (String × α))
    (hne : k' ≠ k) : lookup k' (assign k v h) = lookup k' h := by
  induction h with
  | nil => simp [assign, lookup, Ne.symm hne]
  | cons e t ih =>
    obtain ⟨k1, v1⟩ := e
    by_cases hk : k1 = k
    · subst hk
      simp [assign, lookup, Ne.symm hne]
    · by_cases hk' : k1 = k'
      · subst hk'
        simp [assign, lookup, hk]
      · simp [assign, lookup, hk, hk', ih]

theorem lookup_remove_self {α : Type} (k : String) (h : List (String × α)) :
    lookup k (remove k h) = none := by
  induction h with
  | nil => rfl
  | cons e t ih =>
    obtain ⟨k1, v1⟩ := e
    by_cases hk : k1 = k
    · simp [remove, hk, ih]
    · simp [remove, hk, lookup, ih]

theorem lookup_remove_ne {α : Type} (k k' : String) (h : List (String × α)) (hne : k' ≠ k) :
    lookup k' (remove k h) = lookup k' h := by
  induction h with
  | nil => rfl
  | cons e t ih =>
    obtain ⟨k1, v1⟩ := e
    by_cases hk : k1 = k
    · subst hk
      simp [remove, lookup, Ne.symm hne, ih]
    · simp [remove, hk, lookup, ih]

/-! ## Patterns of ordinary characters -/

namespace RegExp

theorem quantified_of_not_quantifier (a : Node) (parenIndex parenCount : Nat) (t : List Char)
    (h : ∀ c ∈ t, isSyntaxChar c = false) :
    quantified a parenIndex parenCount t = (a, t) := by
  cases t with
  | nil => rfl
  | cons q t =>
    have hq := h q (List.mem_cons_self _ _)
    simp only [isSyntaxChar, Bool.or_eq_false_iff, decide_eq_false_iff_not] at hq
    simp [quantified, hq]

theorem parseDisjunction_literal (p : List Char) (h : ∀ c ∈ p, isSyntaxChar c = false) :
    ∀ (fuel groups : Nat), p.length < fuel →
      parseDisjunction fuel p groups = .ok ⟨literal p, none, [], groups⟩ := by
  induction p with
  | nil =>
    intro fuel groups hf
    cases fuel with
    | zero => omega
    | succ f => rfl
  | cons c t ih =>
    intro fuel groups hf
    cases fuel with
    | zero => omega
    | succ f =>
      have hc := h c (List.mem_cons_self _ _)
      have ht : ∀ d ∈ t, isSyntaxChar d = false := fun d hd => h d (List.mem_cons_of_mem _ hd)
      simp only [isSyntaxChar, Bool.or_eq_false_iff, decide_eq_false_iff_not] at hc
      have hrec := ih ht f groups (by simpa using hf)
      simp [parseDisjunction, hc, quantified_of_not_quantifier _ _ _ t ht, hrec, Piece.after,
        literal]

theorem parse_literal (p : List Char) (h : ∀ c ∈ p, isSyntaxChar c = false) :
    parse p = .ok (literal p, 0) := by
  simp [parse, parseDisjunction_literal p h (p.length + 1) 0 (by omega), Piece.disjunction]

theorem ends_literal (p : List Char) :
    ∀ (i : Nat) (rest : List Char) (caps : List (Nat × List Char)),
      (literal p).ends ⟨i, rest, caps⟩ =
        if p.isPrefixOf rest then [⟨i + p.length, rest.drop p.length, caps⟩] else [] := by
  induction p with
  | nil => intro i rest caps; simp [literal, Node.ends]
  | cons c t ih =>
    intro i rest caps
    cases rest with
    | nil => simp [literal, Node.ends, oneChar]
    | cons d r =>
      by_cases hd : d = c
      · subst hd
        simp [literal, Node.ends, oneChar, ih, Nat.add_assoc, Nat.add_comm 1]
      · have hd' : ¬ c = d := fun e => hd e.symm
        simp [literal, Node.ends, oneChar, hd, hd']

theorem matchAt_literal (p : List Char) (i : Nat) (rest : List Char) :
    matchAt (literal p) i rest =
      if p.isPrefixOf rest then some ⟨i + p.length, rest.drop p.length, []⟩ else none := by
  unfold matchAt
  rw [ends_literal]
  split <;> rfl

theorem getSubstitution_plain (matched before after : List Char)
    (captures : List (Nat × List Char)) (groups : Nat) (template : List Char)
    (h : '$' ∉ template) :
    getSubstitution matched before after captures groups .nothing template = template := by
  induction template with
  | nil => rfl
  | cons c t ih =>
    have hc : ¬ c = '$' := fun e => h (e ▸ List.mem_cons_self _ _)
    have ht : '$' ∉ t := fun e => h (List.mem_cons_of_mem _ e)
    simp [getSubstitution, hc, ih ht]

theorem replaceAll_literal (p template : List Char) (groups : Nat) (h : '$' ∉ template) :
    ∀ (rest : List Char) (skip : Nat) (before : List Char),
      replaceAll (literal p) groups template skip before rest = substitute p template skip rest := by
  intro rest
  induction rest with
  | nil =>
    intro skip before
    cases skip with
    | zero =>
      cases p with
      | nil => simp [replaceAll, substitute, matchAt_literal, replacement, getSubstitution_plain, h]
      | cons c t => simp [replaceAll, substitute, matchAt_literal]
    | succ k => simp [replaceAll, substitute]
  | cons c t ih =>
    intro skip before
    cases skip with
    | succ k => simp [replaceAll, substitute, ih]
    | zero =>
      by_cases hp : p.isPrefixOf (c :: t) = true
      · cases hl : p.length with
        | zero =>
          simp [replaceAll, substitute, matchAt_literal, hp, replacement,
            getSubstitution_plain, h, ih, hl]
        | succ k =>
          simp [replaceAll, substitute, matchAt_literal, hp, replacement,
            getSubstitution_plain, h, ih, hl]
      · simp [replaceAll, substitute, matchAt_literal, hp, ih]

end RegExp

/-! ## The bound on the recursion of the repeat matcher is enough -/

namespace RegExp

theorem oneChar_advances (p : Char → Bool) : Advances (oneChar p) := by
  intro x y hy
  unfold oneChar at hy
  cases hr : x.rest with
  | nil => simp [hr] at hy
  | cons ch t =>
    simp only [hr] at hy
    by_cases hp : p ch = true
    · simp only [hp, ↓reduceIte, List.mem_singleton] at hy
      subst hy
      simp only [List.length_cons]
      omega
    · simp [hp] at hy

theorem repeatMatcher_advances (m : MState → List MState) (hm : Advances m)
    (parenIndex parenCount : Nat) (greedy : Bool) :
    ∀ (fuel min : Nat) (max : Option Nat),
      Advances (repeatMatcher m parenIndex parenCount greedy fuel min max) := by
  intro fuel
  induction fuel with
  | zero => intro min max x y hy; simp [repeatMatcher] at hy
  | succ f ih =>
    intro min max x y hy
    unfold repeatMatcher at hy
    by_cases hmax : max = some 0
    · simp only [hmax, ↓reduceIte, List.mem_singleton] at hy
      subst hy
      exact ⟨rfl, Nat.le_refl _⟩
    · simp only [hmax, ↓reduceIte] at hy
      have hiter : ∀ z, z ∈ (m (clearCaptures parenIndex parenCount x)).flatMap (fun y =>
          if min = 0 ∧ y.endIndex = x.endIndex then []
          else repeatMatcher m parenIndex parenCount greedy f (min - 1) (max.map (· - 1)) y) →
          z.endIndex + z.rest.length = x.endIndex + x.rest.length ∧
            x.endIndex ≤ z.endIndex := by
        intro z hz
        rw [List.mem_flatMap] at hz
        obtain ⟨w, hw, hzw⟩ := hz
        have h1 := hm _ _ hw
        simp only [clearCaptures] at h1
        by_cases hc : min = 0 ∧ w.endIndex = x.endIndex
        · simp [hc] at hzw
        · simp only [hc, ↓reduceIte] at hzw
          have h2 := ih _ _ _ _ hzw
          omega
      by_cases hmin : min = 0
      · cases greedy with
        | true =>
          simp only [hmin, ne_eq, not_true_eq_false, ↓reduceIte, List.mem_append,
            List.mem_singleton] at hy
          rcases hy with hy | hy
          · exact hiter y (by simpa [hmin] using hy)
          · subst hy
            exact ⟨rfl, Nat.le_refl _⟩
        | false =>
          simp only [hmin, ne_eq, not_true_eq_false, ↓reduceIte, Bool.false_eq_true,
            List.mem_cons] at hy
          rcases hy with hy | hy
          · subst hy
            exact ⟨rfl, Nat.le_refl _⟩
          · exact hiter y (by simpa [hmin] using hy)
      · simp only [ne_eq, hmin, not_false_eq_true, ↓reduceIte] at hy
        exact hiter y (by simpa [hmin] using hy)

theorem ends_advances (n : Node) : Advances n.ends := by
  induction n with
  | empty =>
    intro x y hy
    simp only [Node.ends, List.mem_singleton] at hy
    subst hy
    exact ⟨rfl, Nat.le_refl _⟩
  | char c => exact oneChar_advances _
  | dot => exact oneChar_advances _
  | cls negated items => exact oneChar_advances _
  | bol =>
    intro x y hy
    simp only [Node.ends] at hy
    split at hy
    · simp only [List.mem_singleton] at hy
      subst hy
      exact ⟨rfl, Nat.le_refl _⟩
    · simp at hy
  | eol =>
    intro x y hy
    simp only [Node.ends] at hy
    split at hy
    · simp only [List.mem_singleton] at hy
      subst hy
      exact ⟨rfl, Nat.le_refl _⟩
    · simp at hy
  | seq a b iha ihb =>
    intro x y hy
    simp only [Node.ends, List.mem_flatMap] at hy
    obtain ⟨w, hw, hyw⟩ := hy
    have h1 := iha _ _ hw
    have h2 := ihb _ _ hyw
    omega
  | alt a b iha ihb =>
    intro x y hy
    simp only [Node.ends, List.mem_append] at hy
    rcases hy with hy | hy
    · exact iha _ _ hy
    · exact ihb _ _ hy
  | group index a iha =>
    intro x y hy
    simp only [Node.ends, List.mem_map] at hy
    obtain ⟨w, hw, hyw⟩ := hy
    have h1 := iha _ _ hw
    subst hyw
    exact h1
  | rep min max greedy parenIndex parenCount a iha =>
    intro x y hy
    simp only [Node.ends] at hy
    exact repeatMatcher_advances a.ends iha parenIndex parenCount greedy _ _ _ _ _ hy

/-- The repeat matcher gives the same end states for every bound above
`min + x.rest.length`: the bound used by `Node.ends` never runs out. -/
theorem repeatMatcher_fuel (m : MState → List MState) (hm : Advances m)
    (parenIndex parenCount : Nat) (greedy : Bool) :
    ∀ (fuel1 fuel2 min : Nat) (max : Option Nat) (x : MState),
      min + x.rest.length < fuel1 → min + x.rest.length < fuel2 →
      repeatMatcher m parenIndex parenCount greedy fuel1 min max x =
        repeatMatcher m parenIndex parenCount greedy fuel2 min max x := by
  intro fuel1
  induction fuel1 with
  | zero => intro fuel2 min max x h1; omega
  | succ f1 ih =>
    intro fuel2 min max x h1 h2
    cases fuel2 with
    | zero => omega
    | succ f2 =>
      have hiter : (m (clearCaptures parenIndex parenCount x)).flatMap (fun y =>
          if min = 0 ∧ y.endIndex = x.endIndex then []
          else repeatMatcher m parenIndex parenCount greedy f1 (min - 1) (max.map (· - 1)) y)
          = (m (clearCaptures parenIndex parenCount x)).flatMap (fun y =>
          if min = 0 ∧ y.endIndex = x.endIndex then []
          else repeatMatcher m parenIndex parenCount greedy f2 (min - 1) (max.map (· - 1)) y) := by
        apply List.flatMap_congr
        intro w hw
        have hw1 := hm _ _ hw
        simp only [clearCaptures] at hw1
        by_cases hc : min = 0 ∧ w.endIndex = x.endIndex
        · simp [hc]
        · simp only [hc, ↓reduceIte]
          apply ih
          · by_cases hmin : min = 0
            · have : w.endIndex ≠ x.endIndex := fun e => hc ⟨hmin, e⟩
              omega
            · omega
          · by_cases hmin : min = 0
            · have : w.endIndex ≠ x.endIndex := fun e => hc ⟨hmin, e⟩
              omega
            · omega
      unfold repeatMatcher
      simp only [hiter]

/-- A quantified atom matches as the repeat matcher does with any bound above
`min + x.rest.length`. -/
theorem rep_ends_fuel (a : Node) (min : Nat) (max : Option Nat) (greedy : Bool)
    (parenIndex parenCount : Nat) (x : MState) (fuel : Nat)
    (h : min + x.rest.length < fuel) :
    (Node.rep min max greedy parenIndex parenCount a).ends x =
      repeatMatcher a.ends parenIndex parenCount greedy fuel min max x :=
  repeatMatcher_fuel a.ends (ends_advances a) parenIndex parenCount greedy _ _ _ _ _
    (Nat.lt_succ_self _) h

/-- The tree `portRe` is what the pattern text `:\d+$` is read as. -/
theorem portRe_parsed : parse [':', Char.ofNat 92, 'd', '+', '$'] = .ok (portRe, 0) := by
  decide

end RegExp

/-! ## The loop over the cookies and the copy of the headers -/

theorem rewriteLoop_append (f : String → String) (pre : List String) :
    ∀ suf : List String, rewriteLoop f pre.length (pre ++ suf) = pre.map f ++ suf := by
  induction pre using List.reverseRecOn with
  | nil => intro suf; rfl
  | append_singleton pre c ih =>
    intro suf
    have h1 : (pre ++ [c] ++ suf).get? pre.length = some c := by
      rw [List.append_assoc, List.get?_eq_getElem?,
        List.getElem?_append_right (Nat.le_refl _)]
      simp
    have h2 : (pre ++ [c] ++ suf).set pre.length (f c) = pre ++ (f c :: suf) := by
      simp [List.set_append]
    simp only [List.length_append, List.length_singleton, rewriteLoop, h1, h2, ih]
    simp

theorem rewriteLoop_eq_map (f : String → String) (xs : List String) :
    rewriteLoop f xs.length xs = xs.map f := by
  simpa using rewriteLoop_append f xs []

/-- One step of the copy: `res.setHeader(key, headers[key])`. -/
theorem copy_fold_lookup (h : List (String × HeaderValue)) (k : String) :
    ∀ (ks : List String) (res : ServerResponse),
      lookup k (ks.foldl (fun r key =>
          match lookup key h with
          | some v => r.setHeader key v
          | none => r) res).headers
        = if k ∈ ks ∧ (lookup k h).isSome then lookup k h else lookup k res.headers := by
  intro ks
  induction ks with
  | nil => intro res; simp
  | cons a t ih =>
    intro res
    rw [List.foldl_cons, ih]
    by_cases hak : a = k
    · subst hak
      cases hl : lookup a h with
      | none => simp
      | some v => simp [ServerResponse.setHeader, lookup_assign_self]
    · have hka : ¬ k = a := fun e => hak e.symm
      cases hl : lookup a h with
      | none => simp [hka]
      | some v => simp [ServerResponse.setHeader, lookup_assign_ne a k v _ hka, hka]

theorem lookup_isSome_iff_mem_keys {α : Type} (k : String) (h : List (String × α)) :
    (lookup k h).isSome = true ↔ k ∈ keys h := by
  induction h with
  | nil => simp [lookup, keys]
  | cons e t ih =>
    obtain ⟨k1, v1⟩ := e
    by_cases hk : k1 = k
    · simp [lookup, keys, hk]
    · have hk' : ¬ k = k1 := fun e => hk e.symm
      simp only [keys] at ih
      simp [lookup, keys, hk, hk', ih]

/-- After the copy, a header of the outgoing response has the upstream value when the
upstream response has that header, and its former value otherwise. -/
theorem copyHeaders_lookup (res : ServerResponse) (h : List (String × HeaderValue))
    (k : String) :
    lookup k (copyHeaders res h).headers =
      match lookup k h with
      | some v => some v
      | none => lookup k res.headers := by
  unfold copyHeaders
  rw [copy_fold_lookup]
  cases hl : lookup k h with
  | none => simp
  | some v =>
    have : k ∈ keys h := (lookup_isSome_iff_mem_keys k h).mp (by simp [hl])
    simp [this]

theorem copy_fold_calls (h : List (String × HeaderValue)) :
    ∀ (ks : List String) (res : ServerResponse),
      (ks.foldl (fun r key =>
          match lookup key h with
          | some v => r.setHeader key v
          | none => r) res).calls
        = res.calls ++ ks.filterMap (fun key => (lookup key h).map (WriterOp.setHeader key)) := by
  intro ks
  induction ks with
  | nil => intro res; simp
  | cons a t ih =>
    intro res
    rw [List.foldl_cons, ih]
    cases hl : lookup a h with
    | none => simp [hl]
    | some v => simp [hl, ServerResponse.setHeader]

/-- The calls made by the copy: one `setHeader` per key of the upstream headers, with
the upstream value. -/
theorem copyHeaders_calls (res : ServerResponse) (h : List (String × HeaderValue)) :
    (copyHeaders res h).calls =
      res.calls ++ (keys h).filterMap (fun key => (lookup key h).map (WriterOp.setHeader key)) :=
  copy_fold_calls h (keys h) res

theorem copy_fold_status (h : List (String × HeaderValue)) :
    ∀ (ks : List String) (res : ServerResponse),
      (ks.foldl (fun r key =>
          match lookup key h with
          | some v => r.setHeader key v
          | none => r) res).status = res.status := by
  intro ks
  induction ks with
  | nil => intro res; rfl
  | cons a t ih =>
    intro res
    rw [List.foldl_cons, ih]
    cases hl : lookup a h <;> simp [ServerResponse.setHeader]

theorem copyHeaders_status (res : ServerResponse) (h : List (String × HeaderValue)) :
    (copyHeaders res h).status = res.status :=
  copy_fold_status h (keys h) res

/-- A `setHeader` call made by the copy carries the upstream value of its header. -/
theorem mem_copy_calls (h : List (String × HeaderValue)) (k : String) (v : HeaderValue)
    (hm : WriterOp.setHeader k v ∈
      (keys h).filterMap (fun key => (lookup key h).map (WriterOp.setHeader key))) :
    lookup k h = some v := by
  rw [List.mem_filterMap] at hm
  obtain ⟨key, _, hkey⟩ := hm
  cases hl : lookup key h with
  | none => simp [hl] at hkey
  | some w =>
    simp only [hl, Option.map_some', Option.some.injEq, WriterOp.setHeader.injEq] at hkey
    obtain ⟨h1, h2⟩ := hkey
    subst h1 h2
    exact hl

/-- The cookie rewriting returns the upstream response it was given, or that response
with a new array under `set-cookie`. -/
theorem rewriteCookies_shape (ext : Extension) (req : IncomingMessage)
    (proxyRes rewritten : ProxyResponse) (h : rewriteCookies ext req proxyRes = .ok rewritten) :
    rewritten = proxyRes ∨
    ∃ ys, rewritten = { proxyRes with
      headers := assign "set-cookie" (HeaderValue.arr ys) proxyRes.headers } := by
  unfold rewriteCookies at h
  split at h
  · split at h
    · split at h
      · exact absurd h (by simp)
      · split at h
        · right
          exact ⟨_, (Except.ok.inj h).symm⟩
        · left
          exact (Except.ok.inj h).symm
    · left
      exact (Except.ok.inj h).symm
  · left
    exact (Except.ok.inj h).symm

/-- The cookie rewriting changes no upstream header other than `set-cookie`. -/
theorem rewriteCookies_lookup_ne (ext : Extension) (req : IncomingMessage)
    (proxyRes rewritten : ProxyResponse) (h : rewriteCookies ext req proxyRes = .ok rewritten)
    (k : String) (hk : k ≠ "set-cookie") :
    lookup k rewritten.headers = lookup k proxyRes.headers := by
  rcases rewriteCookies_shape ext req proxyRes rewritten h with h1 | ⟨ys, h1⟩
  · rw [h1]
  · rw [h1]
    exact lookup_assign_ne "set-cookie" k _ _ hk

/-- Without an `x-forwarded-host` header the cookie rewriting does nothing. -/
theorem rewriteCookies_no_target (ext : Extension) (req : IncomingMessage)
    (proxyRes : ProxyResponse) (h : lookup "x-forwarded-host" req.headers = none) :
    rewriteCookies ext req proxyRes = .ok proxyRes := by
  unfold rewriteCookies
  rw [h]
  cases lookup "host" req.headers <;> rfl

/-- The cookie rewriting for a target of ordinary characters and a source without
`$`: every entry is rewritten by literal replacement. -/
theorem rewriteCookies_literal (ext : Extension) (req : IncomingMessage)
    (proxyRes : ProxyResponse) (source target : String) (xs : List String)
    (hs : lookup "host" req.headers = some source)
    (ht : lookup "x-forwarded-host" req.headers = some target)
    (hc : lookup "set-cookie" proxyRes.headers = some (.arr xs))
    (hs0 : source ≠ "") (ht0 : target ≠ "") (hxs : xs ≠ [])
    (hlit : ∀ c ∈ (stripPort target).toList, RegExp.isSyntaxChar c = false)
    (hdollar : '$' ∉ (stripPort source).toList) :
    rewriteCookies ext req proxyRes = .ok { proxyRes with
      headers := assign "set-cookie"
        (HeaderValue.arr (xs.map (replaceLiteral (stripPort target) (stripPort source))))
        proxyRes.headers } := by
  have hlen : xs.length ≠ 0 := fun e => hxs (List.length_eq_zero.mp e)
  have hre : newRegExp ext (stripPort target)
      = .ok (.modelled (RegExp.literal (stripPort target).toList) 0) := by
    unfold newRegExp
    rw [RegExp.parse_literal _ hlit]
  have hf : (fun c => (JsRegExp.modelled (RegExp.literal (stripPort target).toList) 0).replaceIn c
      (stripPort source)) = replaceLiteral (stripPort target) (stripPort source) := by
    funext c
    show String.mk (RegExp.replaceAll (RegExp.literal (stripPort target).toList) 0
      (stripPort source).toList 0 [] c.toList) = _
    rw [RegExp.replaceAll_literal _ _ _ hdollar]
    rfl
  simp only [rewriteCookies, hs, ht, hc, HeaderValue.length, ne_eq, hs0, not_false_eq_true,
    ht0, hlen, and_self, ↓reduceIte, hre, hf, rewriteLoop_eq_map]

/-! ## `setConnection` -/

/-- C1 (counterexample): for an HTTP/1.1 request carrying `connection: close` and an
upstream response whose `connection` header is the empty string, `setConnection`
replaces the upstream value by the client's. -/
theorem C1_counterexample_empty_upstream_connection :
    (⟨some "1.1", [("connection", "close")]⟩ : IncomingMessage).httpVersion ≠ some "1.0" ∧
    lookup "connection" (⟨200, [("connection", .str "")]⟩ : ProxyResponse).headers
      = some (.str "") ∧
    lookup "connection"
      (setConnection ⟨some "1.1", [("connection", "close")]⟩ ⟨[], none, []⟩
        ⟨200, [("connection", .str "")]⟩).proxyRes.headers = some (.str "close") := by
  decide

/-- C1 (amended): when `httpVersion` is not "1.0" and the upstream response has a
`connection` header with a non-empty value `v`, `setConnection` changes nothing, so
the upstream `connection` header still equals `v`, whatever the request carries. -/
theorem C1_setConnection_keeps_upstream_connection (req : IncomingMessage)
    (res : ServerResponse) (proxyRes : ProxyResponse) (v : String)
    (hver : req.httpVersion ≠ some "1.0")
    (hup : lookup "connection" proxyRes.headers = some (.str v)) (hv : v ≠ "") :
    setConnection req res proxyRes = .normal res proxyRes ∧
    lookup "connection" (setConnection req res proxyRes).proxyRes.headers = some (.str v) := by
  have h : setConnection req res proxyRes = .normal res proxyRes := by
    simp [setConnection, hver, hup, falsy, HeaderValue.truthy, hv]
  rw [h]
  exact ⟨rfl, hup⟩

/-- C1 (witness): HTTP/1.1 request with `connection: close`, upstream
`connection: keep-alive`. -/
theorem C1_witness :
    setConnection ⟨some "1.1", [("connection", "close")]⟩ ⟨[], none, []⟩
        ⟨200, [("connection", .str "keep-alive")]⟩
      = .normal ⟨[], none, []⟩ ⟨200, [("connection", .str "keep-alive")]⟩ ∧
    lookup "connection"
      (setConnection ⟨some "1.1", [("connection", "close")]⟩ ⟨[], none, []⟩
        ⟨200, [("connection", .str "keep-alive")]⟩).proxyRes.headers
      = some (.str "keep-alive") :=
  C1_setConnection_keeps_upstream_connection _ _ _ "keep-alive" (by decide) (by decide)
    (by decide)

/-- C2 (counterexample): an HTTP/1.0 request whose `connection` header is the empty
string gets the default "close", not its own value. -/
theorem C2_counterexample_empty_client_connection :
    lookup "connection" (⟨some "1.0", [("connection", "")]⟩ : IncomingMessage).headers
      = some "" ∧
    lookup "connection"
      (setConnection ⟨some "1.0", [("connection", "")]⟩ ⟨[], none, []⟩
        ⟨200, []⟩).proxyRes.headers = some (.str "close") := by
  decide

/-- C2 (amended): for a request carrying a non-empty `connection` header `v`:
with `httpVersion` "1.0" the upstream `connection` header equals `v` after
`setConnection`, whatever it was before; with another `httpVersion` and no upstream
`connection` header it equals `v` as well. For a request whose `connection` header
is absent or empty the values are the defaults "close" and "keep-alive". -/
theorem C2_setConnection_client_value (req : IncomingMessage) (res : ServerResponse)
    (proxyRes : ProxyResponse) :
    (∀ v, lookup "connection" req.headers = some v → v ≠ "" →
      (req.httpVersion = some "1.0" →
        lookup "connection" (setConnection req res proxyRes).proxyRes.headers
          = some (.str v)) ∧
      (req.httpVersion ≠ some "1.0" → lookup "connection" proxyRes.headers = none →
        lookup "connection" (setConnection req res proxyRes).proxyRes.headers
          = some (.str v))) ∧
    ((lookup "connection" req.headers = none ∨ lookup "connection" req.headers = some "") →
      (req.httpVersion = some "1.0" →
        lookup "connection" (setConnection req res proxyRes).proxyRes.headers
          = some (.str "close")) ∧
      (req.httpVersion ≠ some "1.0" → lookup "connection" proxyRes.headers = none →
        lookup "connection" (setConnection req res proxyRes).proxyRes.headers
          = some (.str "keep-alive"))) := by
  refine ⟨fun v hreq hv => ⟨fun hver => ?_, fun hver hup => ?_⟩,
    fun hreq => ⟨fun hver => ?_, fun hver hup => ?_⟩⟩
  · simp [setConnection, hver, Completion.proxyRes, lookup_assign_self, orElse, hreq, hv]
  · simp [setConnection, hver, hup, falsy, Completion.proxyRes, lookup_assign_self, orElse,
      hreq, hv]
  · rcases hreq with hreq | hreq <;>
      simp [setConnection, hver, Completion.proxyRes, lookup_assign_self, orElse, hreq]
  · rcases hreq with hreq | hreq <;>
      simp [setConnection, hver, hup, falsy, Completion.proxyRes, lookup_assign_self, orElse,
        hreq]

/-- C2 (witness): an HTTP/1.0 request with `connection: keep-alive` against an
upstream `connection: close`. -/
theorem C2_witness :
    lookup "connection"
      (setConnection ⟨some "1.0", [("connection", "keep-alive")]⟩ ⟨[], none, []⟩
        ⟨200, [("connection", .str "close")]⟩).proxyRes.headers
      = some (.str "keep-alive") :=
  ((C2_setConnection_client_value ⟨some "1.0", [("connection", "keep-alive")]⟩ ⟨[], none, []⟩
    ⟨200, [("connection", .str "close")]⟩).1 "keep-alive" (by decide) (by decide)).1
    (by decide)

/-! ## `writeHeaders`: the cookie rewriting -/

/-- When `writeHeaders` returns, every header of the upstream response it leaves is
on the outgoing response with the same value, and every other header of the
outgoing response is as before. -/
theorem writeHeaders_normal_copies (ext : Extension) (req : IncomingMessage)
    (res res1 : ServerResponse) (proxyRes proxyRes1 : ProxyResponse)
    (h : writeHeaders ext req res proxyRes = .normal res1 proxyRes1) :
    (∀ k v, lookup k proxyRes1.headers = some v → lookup k res1.headers = some v) ∧
    (∀ k, lookup k proxyRes1.headers = none → lookup k res1.headers = lookup k res.headers) := by
  unfold writeHeaders at h
  cases hr : rewriteCookies ext req proxyRes with
  | error e => simp [hr] at h
  | ok rewritten =>
    simp only [hr, Completion.normal.injEq] at h
    obtain ⟨h1, h2⟩ := h
    subst h1 h2
    constructor
    · intro k v hk
      rw [copyHeaders_lookup, hk]
    · intro k hk
      rw [copyHeaders_lookup, hk]

/-- The target is read as a pattern: with target `backend.internal` the dot matches
the `-` of `backend-internal`, and that text is rewritten too, which literal
replacement leaves alone. -/
theorem writeHeaders_dot_matches_any_character :
    lookup "set-cookie"
      (writeHeaders (fun _ => none)
        ⟨some "1.1", [("host", "example.com"), ("x-forwarded-host", "backend.internal")]⟩
        ⟨[], none, []⟩
        ⟨200, [("set-cookie",
          .arr ["id=backend-internal; Domain=backend.internal"])]⟩).proxyRes.headers
      = some (.arr ["id=example.com; Domain=example.com"]) ∧
    replaceLiteral "backend.internal" "example.com"
        "id=backend-internal; Domain=backend.internal"
      = "id=backend-internal; Domain=example.com" := by
  constructor <;> rfl

/-- C3 (counterexample): a request that carries an empty `host` header and
`x-forwarded-host: backend`; the cookie `sid=1; Domain=backend` is left as it is,
while replacing the target by the source would give `sid=1; Domain=`. -/
theorem C3_counterexample_empty_host :
    lookup "host"
      (⟨some "1.1", [("host", ""), ("x-forwarded-host", "backend")]⟩ : IncomingMessage).headers
      = some "" ∧
    lookup "x-forwarded-host"
      (⟨some "1.1", [("host", ""), ("x-forwarded-host", "backend")]⟩ : IncomingMessage).headers
      = some "backend" ∧
    lookup "set-cookie"
      (writeHeaders (fun _ => none)
        ⟨some "1.1", [("host", ""), ("x-forwarded-host", "backend")]⟩ ⟨[], none, []⟩
        ⟨200, [("set-cookie", .arr ["sid=1; Domain=backend"])]⟩).proxyRes.headers
      = some (.arr ["sid=1; Domain=backend"]) ∧
    replaceLiteral (stripPort "backend") (stripPort "") "sid=1; Domain=backend"
      = "sid=1; Domain=" := by
  refine ⟨rfl, rfl, rfl, rfl⟩

/-- C3 (amended): for a request whose `host` and `x-forwarded-host` headers are
non-empty, whose port-stripped target has no pattern syntax character and whose
port-stripped source has no `$`, and an upstream response with a non-empty
`set-cookie` array, `writeHeaders` returns, and each `set-cookie` entry, on the
upstream response and on the outgoing response, is the original entry at the same
position with every literal occurrence of the port-stripped target replaced by the
port-stripped source. -/
theorem C3_writeHeaders_rewrites_literal_occurrences (ext : Extension)
    (req : IncomingMessage) (res : ServerResponse) (proxyRes : ProxyResponse)
    (source target : String) (xs : List String)
    (hs : lookup "host" req.headers = some source)
    (ht : lookup "x-forwarded-host" req.headers = some target)
    (hc : lookup "set-cookie" proxyRes.headers = some (.arr xs))
    (hs0 : source ≠ "") (ht0 : target ≠ "") (hxs : xs ≠ [])
    (hlit : ∀ c ∈ (stripPort target).toList, RegExp.isSyntaxChar c = false)
    (hdollar : '$' ∉ (stripPort source).toList) :
    (writeHeaders ext req res proxyRes).isNormal = true ∧
    lookup "set-cookie" (writeHeaders ext req res proxyRes).proxyRes.headers
      = some (.arr (xs.map (replaceLiteral (stripPort target) (stripPort source)))) ∧
    lookup "set-cookie" (writeHeaders ext req res proxyRes).res.headers
      = some (.arr (xs.map (replaceLiteral (stripPort target) (stripPort source)))) := by
  have h := rewriteCookies_literal ext req proxyRes source target xs hs ht hc hs0 ht0 hxs hlit
    hdollar
  simp only [writeHeaders, h, Completion.isNormal, Completion.proxyRes, Completion.res,
    copyHeaders_lookup, lookup_assign_self, and_self]

set_option maxRecDepth 100000 in
/-- C3 (witness): host `example.com:80`, target `localhost:3000`, one cookie. -/
theorem C3_witness :
    (writeHeaders (fun _ => none)
      ⟨some "1.1", [("host", "example.com:80"), ("x-forwarded-host", "localhost:3000")]⟩
      ⟨[], none, []⟩
      ⟨200, [("set-cookie", .arr ["sid=1; Domain=localhost; Path=/"])]⟩).isNormal = true ∧
    lookup "set-cookie"
      (writeHeaders (fun _ => none)
        ⟨some "1.1", [("host", "example.com:80"), ("x-forwarded-host", "localhost:3000")]⟩
        ⟨[], none, []⟩
        ⟨200, [("set-cookie", .arr ["sid=1; Domain=localhost; Path=/"])]⟩).proxyRes.headers
      = some (.arr (["sid=1; Domain=localhost; Path=/"].map
          (replaceLiteral (stripPort "localhost:3000") (stripPort "example.com:80")))) ∧
    lookup "set-cookie"
      (writeHeaders (fun _ => none)
        ⟨some "1.1", [("host", "example.com:80"), ("x-forwarded-host", "localhost:3000")]⟩
        ⟨[], none, []⟩
        ⟨200, [("set-cookie", .arr ["sid=1; Domain=localhost; Path=/"])]⟩).res.headers
      = some (.arr (["sid=1; Domain=localhost; Path=/"].map
          (replaceLiteral (stripPort "localhost:3000") (stripPort "example.com:80")))) :=
  C3_writeHeaders_rewrites_literal_occurrences (fun _ => none)
    ⟨some "1.1", [("host", "example.com:80"), ("x-forwarded-host", "localhost:3000")]⟩
    ⟨[], none, []⟩ ⟨200, [("set-cookie", .arr ["sid=1; Domain=localhost; Path=/"])]⟩
    "example.com:80" "localhost:3000" ["sid=1; Domain=localhost; Path=/"]
    rfl rfl rfl (by decide) (by decide) (by decide) (by decide) (by decide)

/-- C4 (failing input): with `x-forwarded-host: (` on the request and a cookie on the
upstream response, `new RegExp(target, 'g')` throws a `SyntaxError` out of
`writeHeaders`; nothing has been copied, and a run of the four passes ends there,
without the status commit of `writeStatusCode`. -/
theorem C4_writeHeaders_throws_on_unbalanced_target (ext : Extension) (res : ServerResponse) :
    writeHeaders ext ⟨some "1.1", [("host", "example.com"), ("x-forwarded-host", "(")]⟩ res
        ⟨200, [("set-cookie", .arr ["sid=1"])]⟩
      = .throw .syntaxError res ⟨200, [("set-cookie", .arr ["sid=1"])]⟩ ∧
    run ext ⟨some "1.1", [("host", "example.com"), ("x-forwarded-host", "(")]⟩ res
        ⟨200, [("set-cookie", .arr ["sid=1"])]⟩
      = .throw .syntaxError res
          ⟨200, [("set-cookie", .arr ["sid=1"]), ("connection", .str "keep-alive")]⟩ := by
  constructor <;> rfl

/-! ## HTTP/1.0 clients and the run of the four passes -/

/-- A run of the four passes after `removeChunked` and `setConnection` have
returned: `writeHeaders`, then `writeStatusCode` unless `writeHeaders` threw. -/
theorem run_eq (ext : Extension) (req : IncomingMessage) (res : ServerResponse)
    (proxyRes : ProxyResponse) :
    run ext req res proxyRes =
      match writeHeaders ext req res
        (setConnection req res (removeChunked req res proxyRes).proxyRes).proxyRes with
      | .normal res1 proxyRes1 => .normal (res1.writeHead proxyRes1.statusCode) proxyRes1
      | .throw e res1 proxyRes1 => .throw e res1 proxyRes1 := by
  unfold run passes
  simp only [List.map, runPasses]
  by_cases hv : req.httpVersion = some "1.0"
  · simp only [removeChunked, setConnection, hv, ↓reduceIte, Completion.proxyRes]
    cases writeHeaders ext req res _ <;> simp [writeStatusCode]
  · simp only [removeChunked, setConnection, hv, ↓reduceIte, Completion.proxyRes]
    by_cases hf : falsy (lookup "connection" proxyRes.headers) = true
    · simp only [hf, ↓reduceIte]
      cases writeHeaders ext req res _ <;> simp [writeStatusCode]
    · simp only [hf, Bool.false_eq_true, ↓reduceIte]
      cases writeHeaders ext req res _ <;> simp [writeStatusCode]

/-- C5: for a request with `httpVersion` "1.0", the upstream headers have no
`transfer-encoding` entry after `removeChunked`; and in a run of the four passes no
`setHeader` call for `transfer-encoding` is made on the outgoing response, the
upstream response ends without that header, and the outgoing response keeps
whatever it had under that name before the run. -/
theorem C5_http10_no_transfer_encoding (ext : Extension) (req : IncomingMessage)
    (res : ServerResponse) (proxyRes : ProxyResponse) (hver : req.httpVersion = some "1.0") :
    lookup "transfer-encoding" (removeChunked req res proxyRes).proxyRes.headers = none ∧
    (∀ v, WriterOp.setHeader "transfer-encoding" v ∉
      (run ext req res proxyRes).res.calls.drop res.calls.length) ∧
    lookup "transfer-encoding" (run ext req res proxyRes).proxyRes.headers = none ∧
    lookup "transfer-encoding" (run ext req res proxyRes).res.headers
      = lookup "transfer-encoding" res.headers := by
  have h1 : lookup "transfer-encoding" (removeChunked req res proxyRes).proxyRes.headers
      = none := by
    simp [removeChunked, hver, Completion.proxyRes, lookup_remove_self]
  have h2 : lookup "transfer-encoding"
      (setConnection req res (removeChunked req res proxyRes).proxyRes).proxyRes.headers
      = none := by
    simp only [setConnection, hver, ↓reduceIte, Completion.proxyRes]
    rw [lookup_assign_ne "connection" "transfer-encoding" _ _ (by decide)]
    exact h1
  refine ⟨h1, ?_⟩
  rw [run_eq]
  generalize (setConnection req res (removeChunked req res proxyRes).proxyRes).proxyRes = p2
    at h2
  unfold writeHeaders
  cases hr : rewriteCookies ext req p2 with
  | error e => simp [Completion.res, Completion.proxyRes, h2]
  | ok rewritten =>
    have h3 : lookup "transfer-encoding" rewritten.headers = none := by
      rw [rewriteCookies_lookup_ne ext req p2 rewritten hr "transfer-encoding" (by decide)]
      exact h2
    simp only [Completion.res, Completion.proxyRes, ServerResponse.writeHead,
      copyHeaders_calls, copyHeaders_lookup, h3, List.append_assoc, List.drop_left, and_true]
    intro v hmem
    rw [List.mem_append] at hmem
    rcases hmem with hmem | hmem
    · have := mem_copy_calls rewritten.headers "transfer-encoding" v hmem
      rw [h3] at this
      exact absurd this (by simp)
    · simp at hmem

/-- C5 (witness): an HTTP/1.0 request and a chunked upstream response. -/
theorem C5_witness :
    lookup "transfer-encoding"
      (removeChunked ⟨some "1.0", []⟩ ⟨[], none, []⟩
        ⟨200, [("transfer-encoding", .str "chunked"),
          ("content-type", .str "text/plain")]⟩).proxyRes.headers = none ∧
    (∀ v, WriterOp.setHeader "transfer-encoding" v ∉
      (run (fun _ => none) ⟨some "1.0", []⟩ ⟨[], none, []⟩
        ⟨200, [("transfer-encoding", .str "chunked"),
          ("content-type", .str "text/plain")]⟩).res.calls.drop
        (⟨[], none, []⟩ : ServerResponse).calls.length) ∧
    lookup "transfer-encoding"
      (run (fun _ => none) ⟨some "1.0", []⟩ ⟨[], none, []⟩
        ⟨200, [("transfer-encoding", .str "chunked"),
          ("content-type", .str "text/plain")]⟩).proxyRes.headers = none ∧
    lookup "transfer-encoding"
      (run (fun _ => none) ⟨some "1.0", []⟩ ⟨[], none, []⟩
        ⟨200, [("transfer-encoding", .str "chunked"),
          ("content-type", .str "text/plain")]⟩).res.headers
      = lookup "transfer-encoding" (⟨[], none, []⟩ : ServerResponse).headers :=
  C5_http10_no_transfer_encoding (fun _ => none) ⟨some "1.0", []⟩ ⟨[], none, []⟩
    ⟨200, [("transfer-encoding", .str "chunked"), ("content-type", .str "text/plain")]⟩ rfl

/-- C6 (failing input): an HTTP/1.0 request without `connection` header but with
`x-forwarded-host: (`, and an upstream response with a cookie. `setConnection` sets
the upstream `connection` to "close", but `writeHeaders` throws before copying, so
the run ends with no `connection` header on the outgoing response. -/
theorem C6_http10_connection_not_written_when_target_invalid (ext : Extension) :
    lookup "connection"
      (setConnection ⟨some "1.0", [("host", "example.com"), ("x-forwarded-host", "(")]⟩
        ⟨[], none, []⟩ ⟨200, [("set-cookie", .arr ["sid=1"])]⟩).proxyRes.headers
      = some (.str "close") ∧
    (run ext ⟨some "1.0", [("host", "example.com"), ("x-forwarded-host", "(")]⟩
      ⟨[], none, []⟩ ⟨200, [("set-cookie", .arr ["sid=1"])]⟩).isNormal = false ∧
    lookup "connection"
      (run ext ⟨some "1.0", [("host", "example.com"), ("x-forwarded-host", "(")]⟩
        ⟨[], none, []⟩ ⟨200, [("set-cookie", .arr ["sid=1"])]⟩).res.headers = none := by
  refine ⟨rfl, rfl, rfl⟩

/-- C7 (failing input): an HTTP/1.1 request without `connection` header but with
`x-forwarded-host: (`, and an upstream response with a cookie and no `connection`
header. `setConnection` sets the upstream `connection` to "keep-alive", but
`writeHeaders` throws before copying, so the run ends with no `connection` header on
the outgoing response. -/
theorem C7_keep_alive_not_written_when_target_invalid (ext : Extension) :
    lookup "connection"
      (setConnection ⟨some "1.1", [("host", "example.com"), ("x-forwarded-host", "(")]⟩
        ⟨[], none, []⟩ ⟨200, [("set-cookie", .arr ["sid=1"])]⟩).proxyRes.headers
      = some (.str "keep-alive") ∧
    (run ext ⟨some "1.1", [("host", "example.com"), ("x-forwarded-host", "(")]⟩
      ⟨[], none, []⟩ ⟨200, [("set-cookie", .arr ["sid=1"])]⟩).isNormal = false ∧
    lookup "connection"
      (run ext ⟨some "1.1", [("host", "example.com"), ("x-forwarded-host", "(")]⟩
        ⟨[], none, []⟩ ⟨200, [("set-cookie", .arr ["sid=1"])]⟩).res.headers = none := by
  refine ⟨rfl, rfl, rfl⟩

/-! ## `writeHeaders`: pass-through and copy -/

/-- C8: for a request without `x-forwarded-host` header, whatever its `host` header,
`writeHeaders` returns, leaves the upstream response as it was (so every
`set-cookie` entry is unmodified), and writes the upstream `set-cookie` value to the
outgoing response with a `setHeader` call. -/
theorem C8_no_forwarded_host_passes_cookies_through (ext : Extension) (req : IncomingMessage)
    (res : ServerResponse) (proxyRes : ProxyResponse)
    (h : lookup "x-forwarded-host" req.headers = none) :
    writeHeaders ext req res proxyRes = .normal (copyHeaders res proxyRes.headers) proxyRes ∧
    (writeHeaders ext req res proxyRes).proxyRes = proxyRes ∧
    ∀ v, lookup "set-cookie" proxyRes.headers = some v →
      lookup "set-cookie" (writeHeaders ext req res proxyRes).res.headers = some v ∧
      WriterOp.setHeader "set-cookie" v ∈ (writeHeaders ext req res proxyRes).res.calls := by
  have hw : writeHeaders ext req res proxyRes
      = .normal (copyHeaders res proxyRes.headers) proxyRes := by
    simp [writeHeaders, rewriteCookies_no_target ext req proxyRes h]
  rw [hw]
  refine ⟨rfl, rfl, fun v hv => ⟨?_, ?_⟩⟩
  · simp [Completion.res, copyHeaders_lookup, hv]
  · simp only [Completion.res, copyHeaders_calls, List.mem_append, List.mem_filterMap]
    right
    refine ⟨"set-cookie", ?_, by simp [hv]⟩
    exact (lookup_isSome_iff_mem_keys _ _).mp (by simp [hv])

/-- C8 (witness): a request with a `host` header only, two cookies upstream. -/
theorem C8_witness :
    lookup "set-cookie"
      (writeHeaders (fun _ => none) ⟨some "1.1", [("host", "backend.internal")]⟩ ⟨[], none, []⟩
        ⟨200, [("set-cookie", .arr ["a=1; Domain=backend.internal", "b=2"])]⟩).res.headers
      = some (.arr ["a=1; Domain=backend.internal", "b=2"]) ∧
    WriterOp.setHeader "set-cookie" (.arr ["a=1; Domain=backend.internal", "b=2"]) ∈
      (writeHeaders (fun _ => none) ⟨some "1.1", [("host", "backend.internal")]⟩ ⟨[], none, []⟩
        ⟨200, [("set-cookie", .arr ["a=1; Domain=backend.internal", "b=2"])]⟩).res.calls :=
  (C8_no_forwarded_host_passes_cookies_through (fun _ => none)
    ⟨some "1.1", [("host", "backend.internal")]⟩ ⟨[], none, []⟩
    ⟨200, [("set-cookie", .arr ["a=1; Domain=backend.internal", "b=2"])]⟩ rfl).2.2
    (.arr ["a=1; Domain=backend.internal", "b=2"]) rfl

set_option maxRecDepth 100000 in
/-- The rewriting of the example: target `backend.internal:8080`, source
`example.com`, cookie `sid=1; Domain=backend.internal; Path=/`. -/
theorem example_rewriting (ext : Extension) :
    (match newRegExp ext (stripPort "backend.internal:8080") with
     | .ok targetRe =>
       some (targetRe.replaceIn "sid=1; Domain=backend.internal; Path=/"
         (stripPort "example.com"))
     | .error _ => none) = some "sid=1; Domain=example.com; Path=/" := by
  rfl

set_option maxRecDepth 100000 in
/-- C9: for a request with `host: example.com` and
`x-forwarded-host: backend.internal:8080` and an upstream response whose `set-cookie`
is `["sid=1; Domain=backend.internal; Path=/"]`, `writeHeaders` returns and the
`set-cookie` it writes to the outgoing response (and leaves on the upstream
response) is `["sid=1; Domain=example.com; Path=/"]`; the target is matched without its port
suffix and the source has none. -/
theorem C9_cookie_rewrite_example (ext : Extension) (req : IncomingMessage)
    (res : ServerResponse) (proxyRes : ProxyResponse)
    (hs : lookup "host" req.headers = some "example.com")
    (ht : lookup "x-forwarded-host" req.headers = some "backend.internal:8080")
    (hc : lookup "set-cookie" proxyRes.headers
      = some (.arr ["sid=1; Domain=backend.internal; Path=/"])) :
    (writeHeaders ext req res proxyRes).isNormal = true ∧
    lookup "set-cookie" (writeHeaders ext req res proxyRes).res.headers
      = some (.arr ["sid=1; Domain=example.com; Path=/"]) ∧
    lookup "set-cookie" (writeHeaders ext req res proxyRes).proxyRes.headers
      = some (.arr ["sid=1; Domain=example.com; Path=/"]) ∧
    WriterOp.setHeader "set-cookie" (.arr ["sid=1; Domain=example.com; Path=/"]) ∈
      (writeHeaders ext req res proxyRes).res.calls ∧
    stripPort "backend.internal:8080" = "backend.internal" ∧
    stripPort "example.com" = "example.com" := by
  have hex := example_rewriting ext
  have hrw : rewriteCookies ext req proxyRes = .ok { proxyRes with
      headers := assign "set-cookie" (HeaderValue.arr ["sid=1; Domain=example.com; Path=/"])
        proxyRes.headers } := by
    simp only [rewriteCookies, hs, ht, hc]
    cases hre : newRegExp ext (stripPort "backend.internal:8080") with
    | error e => simp [hre] at hex
    | ok targetRe =>
      simp only [hre, Option.some.injEq] at hex
      have hne : ("example.com" : String) ≠ "" ∧ ("backend.internal:8080" : String) ≠ "" ∧
          (HeaderValue.arr ["sid=1; Domain=backend.internal; Path=/"]).length ≠ 0 := by
        decide
      simp only [List.length_singleton, rewriteLoop, List.get?, List.set, hex]
      rw [if_pos hne]
  have hmem : WriterOp.setHeader "set-cookie" (.arr ["sid=1; Domain=example.com; Path=/"]) ∈
      (writeHeaders ext req res proxyRes).res.calls := by
    simp only [writeHeaders, hrw, Completion.res, copyHeaders_calls]
    rw [List.mem_append, List.mem_filterMap]
    right
    refine ⟨"set-cookie", ?_, by simp [lookup_assign_self]⟩
    exact (lookup_isSome_iff_mem_keys _ _).mp (by simp [lookup_assign_self])
  refine ⟨?_, ?_, ?_, hmem, by decide, by decide⟩
  · simp only [writeHeaders, hrw, Completion.isNormal]
  · simp only [writeHeaders, hrw, Completion.res, copyHeaders_lookup, lookup_assign_self]
  · simp only [writeHeaders, hrw, Completion.proxyRes, lookup_assign_self]

/-- C9 (witness): exactly the headers of the example. -/
theorem C9_witness :
    (writeHeaders (fun _ => none)
      ⟨some "1.1", [("host", "example.com"), ("x-forwarded-host", "backend.internal:8080")]⟩
      ⟨[], none, []⟩
      ⟨200, [("set-cookie", .arr ["sid=1; Domain=backend.internal; Path=/"])]⟩).res.headers
      = [("set-cookie", .arr ["sid=1; Domain=example.com; Path=/"])] ∧
    lookup "set-cookie"
      (writeHeaders (fun _ => none)
        ⟨some "1.1", [("host", "example.com"), ("x-forwarded-host", "backend.internal:8080")]⟩
        ⟨[], none, []⟩
        ⟨200, [("set-cookie", .arr ["sid=1; Domain=backend.internal; Path=/"])]⟩).res.headers
      = some (.arr ["sid=1; Domain=example.com; Path=/"]) :=
  ⟨rfl, (C9_cookie_rewrite_example (fun _ => none)
    ⟨some "1.1", [("host", "example.com"), ("x-forwarded-host", "backend.internal:8080")]⟩
    ⟨[], none, []⟩
    ⟨200, [("set-cookie", .arr ["sid=1; Domain=backend.internal; Path=/"])]⟩
    rfl rfl rfl).2.1⟩

/-- C10 (failing input): the upstream response has `content-type: text/plain` and a
cookie, the request has `x-forwarded-host: (`. `writeHeaders` throws before the
copy: the outgoing response has no `content-type` header and has received no call,
although the upstream response has that header. -/
theorem C10_headers_not_copied_when_target_invalid (ext : Extension) :
    lookup "content-type"
      (⟨200, [("content-type", .str "text/plain"),
        ("set-cookie", .arr ["sid=1"])]⟩ : ProxyResponse).headers
      = some (.str "text/plain") ∧
    (writeHeaders ext ⟨some "1.1", [("host", "example.com"), ("x-forwarded-host", "(")]⟩
      ⟨[], none, []⟩
      ⟨200, [("content-type", .str "text/plain"), ("set-cookie", .arr ["sid=1"])]⟩).isNormal
      = false ∧
    lookup "content-type"
      (writeHeaders ext ⟨some "1.1", [("host", "example.com"), ("x-forwarded-host", "(")]⟩
        ⟨[], none, []⟩
        ⟨200, [("content-type", .str "text/plain"),
          ("set-cookie", .arr ["sid=1"])]⟩).res.headers = none ∧
    (writeHeaders ext ⟨some "1.1", [("host", "example.com"), ("x-forwarded-host", "(")]⟩
      ⟨[], none, []⟩
      ⟨200, [("content-type", .str "text/plain"), ("set-cookie", .arr ["sid=1"])]⟩).res.calls
      = [] := by
  refine ⟨rfl, rfl, rfl, rfl⟩

/-! ## `writeStatusCode` and the order of the calls -/

/-- Without a `set-cookie` header on the upstream response the cookie rewriting does
nothing. -/
theorem rewriteCookies_no_cookie (ext : Extension) (req : IncomingMessage)
    (proxyRes : ProxyResponse) (h : lookup "set-cookie" proxyRes.headers = none) :
    rewriteCookies ext req proxyRes = .ok proxyRes := by
  unfold rewriteCookies
  rw [h]
  cases lookup "host" req.headers <;> cases lookup "x-forwarded-host" req.headers <;> rfl

/-- The value `setConnection` writes when it writes one. -/
theorem orElse_ne_empty (a : Option String) (b : String) (hb : b ≠ "") : orElse a b ≠ "" := by
  unfold orElse
  cases a with
  | none => exact hb
  | some s =>
    by_cases hs : s = ""
    · simp [hs, hb]
    · simp [hs]

/-- C11: `writeStatusCode` returns, commits exactly the upstream `statusCode` as the
status of the outgoing response, and changes no header of the outgoing response
and nothing of the upstream response. In particular a run of the four passes on an
upstream response with `statusCode` 404 and headers `content-type: text/plain`
returns, for every request, with status 404 and `content-type` equal to
`text/plain` on the outgoing response, the header being set before the status is
committed. -/
theorem C11_writeStatusCode_commits_upstream_status (ext : Extension) (req : IncomingMessage)
    (res : ServerResponse) (proxyRes : ProxyResponse) :
    (writeStatusCode req res proxyRes).isNormal = true ∧
    (writeStatusCode req res proxyRes).res.status = some proxyRes.statusCode ∧
    (writeStatusCode req res proxyRes).res.headers = res.headers ∧
    (writeStatusCode req res proxyRes).res.calls
      = res.calls ++ [WriterOp.writeHead proxyRes.statusCode] ∧
    (writeStatusCode req res proxyRes).proxyRes = proxyRes ∧
    (run ext req res ⟨404, [("content-type", .str "text/plain")]⟩).isNormal = true ∧
    (run ext req res ⟨404, [("content-type", .str "text/plain")]⟩).res.status = some 404 ∧
    lookup "content-type"
      (run ext req res ⟨404, [("content-type", .str "text/plain")]⟩).res.headers
      = some (.str "text/plain") ∧
    (run ext req res ⟨404, [("content-type", .str "text/plain")]⟩).res.calls
      = res.calls ++
        [WriterOp.setHeader "content-type" (.str "text/plain"),
         WriterOp.setHeader "connection"
           (.str (orElse (lookup "connection" req.headers)
             (if req.httpVersion = some "1.0" then "close" else "keep-alive"))),
         WriterOp.writeHead 404] := by
  refine ⟨rfl, rfl, rfl, rfl, rfl, ?_⟩
  have hp2 : (setConnection req res (removeChunked req res
      ⟨404, [("content-type", .str "text/plain")]⟩).proxyRes).proxyRes
      = ⟨404, [("content-type", .str "text/plain"),
          ("connection", .str (orElse (lookup "connection" req.headers)
            (if req.httpVersion = some "1.0" then "close" else "keep-alive")))]⟩ := by
    by_cases hv : req.httpVersion = some "1.0"
    · simp [removeChunked, setConnection, hv, remove, assign, Completion.proxyRes]
    · simp [removeChunked, setConnection, hv, assign, lookup, falsy, Completion.proxyRes]
  have hw : ∀ c : String, writeHeaders ext req res
      ⟨404, [("content-type", .str "text/plain"), ("connection", .str c)]⟩
      = .normal (copyHeaders res
          [("content-type", .str "text/plain"), ("connection", .str c)])
        ⟨404, [("content-type", .str "text/plain"), ("connection", .str c)]⟩ := by
    intro c
    unfold writeHeaders
    rw [rewriteCookies_no_cookie ext req _ (by simp [lookup])]
  rw [run_eq, hp2, hw]
  simp only [Completion.isNormal, Completion.res, ServerResponse.writeHead, copyHeaders_lookup,
    copyHeaders_calls, true_and]
  refine ⟨by simp [lookup], ?_⟩
  simp [keys, lookup]

/-- The calls of a run that returns: one `setHeader` per upstream header, then the
status commit as the last call. -/
theorem run_normal_calls (ext : Extension) (req : IncomingMessage) (res res1 : ServerResponse)
    (proxyRes proxyRes1 : ProxyResponse) (h : run ext req res proxyRes = .normal res1 proxyRes1) :
    res1.calls = res.calls ++
      (keys proxyRes1.headers).filterMap
        (fun key => (lookup key proxyRes1.headers).map (WriterOp.setHeader key)) ++
      [WriterOp.writeHead proxyRes1.statusCode] := by
  rw [run_eq] at h
  unfold writeHeaders at h
  cases hr : rewriteCookies ext req
      (setConnection req res (removeChunked req res proxyRes).proxyRes).proxyRes with
  | error e => simp [hr] at h
  | ok rewritten =>
    simp only [hr, Completion.normal.injEq] at h
    obtain ⟨h1, h2⟩ := h
    subst h1 h2
    simp [ServerResponse.writeHead, copyHeaders_calls]

/-- C12 (failing input): the array registers the four passes under their names in
the order `removeChunked`, `setConnection`, `writeHeaders`, `writeStatusCode`; but on
a request with `x-forwarded-host: (` and an upstream response with a cookie the run
ends in `writeHeaders` with an exception: the outgoing response has received no
call, its status is not committed, and so the status commit does not occur once. -/
theorem C12_no_status_commit_when_target_invalid (ext : Extension) :
    (passes ext).map Prod.fst
      = ["removeChunked", "setConnection", "writeHeaders", "writeStatusCode"] ∧
    (run ext ⟨some "1.1", [("host", "example.com"), ("x-forwarded-host", "(")]⟩
      ⟨[], none, []⟩ ⟨200, [("set-cookie", .arr ["sid=1"])]⟩).isNormal = false ∧
    (run ext ⟨some "1.1", [("host", "example.com"), ("x-forwarded-host", "(")]⟩
      ⟨[], none, []⟩ ⟨200, [("set-cookie", .arr ["sid=1"])]⟩).res.calls = [] ∧
    (run ext ⟨some "1.1", [("host", "example.com"), ("x-forwarded-host", "(")]⟩
      ⟨[], none, []⟩ ⟨200, [("set-cookie", .arr ["sid=1"])]⟩).res.status = none := by
  refine ⟨rfl, rfl, rfl, rfl⟩

/-! ## `removeChunked` and `setConnection`: idempotence and frame -/

theorem remove_of_lookup_none {α : Type} (k : String) (h : List (String × α))
    (hk : lookup k h = none) : remove k h = h := by
  induction h with
  | nil => rfl
  | cons e t ih =>
    obtain ⟨k1, v1⟩ := e
    by_cases hk1 : k1 = k
    · simp [lookup, hk1] at hk
    · simp only [lookup, hk1, ↓reduceIte] at hk
      simp [remove, hk1, ih hk]

theorem assign_assign {α : Type} (k : String) (v : α) (h : List (String × α)) :
    assign k v (assign k v h) = assign k v h := by
  induction h with
  | nil => simp [assign]
  | cons e t ih =>
    obtain ⟨k1, v1⟩ := e
    by_cases hk1 : k1 = k
    · simp [assign, hk1]
    · simp [assign, hk1, ih]

/-- A second `setConnection` changes nothing. -/
theorem setConnection_idem (req : IncomingMessage) (res res1 : ServerResponse)
    (proxyRes : ProxyResponse) :
    setConnection req res1 (setConnection req res proxyRes).proxyRes
      = .normal res1 (setConnection req res proxyRes).proxyRes := by
  by_cases hv : req.httpVersion = some "1.0"
  · simp [setConnection, hv, Completion.proxyRes, assign_assign]
  · by_cases hf : falsy (lookup "connection" proxyRes.headers) = true
    · have hne : orElse (lookup "connection" req.headers) "keep-alive" ≠ "" :=
        orElse_ne_empty _ _ (by decide)
      have h1 : setConnection req res proxyRes = .normal res { proxyRes with
          headers := assign "connection"
            (HeaderValue.str (orElse (lookup "connection" req.headers) "keep-alive"))
            proxyRes.headers } := by
        simp only [setConnection, hv, ↓reduceIte, hf]
      have h2 : falsy (some (HeaderValue.str
          (orElse (lookup "connection" req.headers) "keep-alive"))) = false := by
        simp [falsy, HeaderValue.truthy, hne]
      rw [h1]
      simp only [Completion.proxyRes, setConnection, hv, ↓reduceIte, lookup_assign_self, h2,
        Bool.false_eq_true]
    · have h1 : ∀ r, setConnection req r proxyRes = .normal r proxyRes := by
        intro r
        simp only [setConnection, hv, ↓reduceIte, hf, Bool.false_eq_true]
      rw [h1 res]
      exact h1 res1

/-- C13: `removeChunked` and `setConnection` are idempotent. Applied to the upstream
response it has produced, each pass returns that response unchanged (and leaves the
outgoing response alone); and after the pair `removeChunked`, `setConnection`, a
second application of either pass, hence of the pair, changes nothing. -/
theorem C13_removeChunked_setConnection_idempotent (req : IncomingMessage)
    (res res1 : ServerResponse) (proxyRes : ProxyResponse) :
    removeChunked req res1 (removeChunked req res proxyRes).proxyRes
      = .normal res1 (removeChunked req res proxyRes).proxyRes ∧
    setConnection req res1 (setConnection req res proxyRes).proxyRes
      = .normal res1 (setConnection req res proxyRes).proxyRes ∧
    removeChunked req res1
        (setConnection req res (removeChunked req res proxyRes).proxyRes).proxyRes
      = .normal res1
        (setConnection req res (removeChunked req res proxyRes).proxyRes).proxyRes ∧
    setConnection req res1
        (setConnection req res (removeChunked req res proxyRes).proxyRes).proxyRes
      = .normal res1
        (setConnection req res (removeChunked req res proxyRes).proxyRes).proxyRes := by
  refine ⟨?_, setConnection_idem req res res1 proxyRes, ?_, setConnection_idem req res res1 _⟩
  · by_cases hv : req.httpVersion = some "1.0"
    · simp only [removeChunked, hv, ↓reduceIte, Completion.proxyRes]
      rw [remove_of_lookup_none _ _ (lookup_remove_self _ _)]
    · simp [removeChunked, hv, Completion.proxyRes]
  · by_cases hv : req.httpVersion = some "1.0"
    · simp only [removeChunked, setConnection, hv, ↓reduceIte, Completion.proxyRes]
      rw [remove_of_lookup_none "transfer-encoding" _ (by
        rw [lookup_assign_ne "connection" "transfer-encoding" _ _ (by decide)]
        exact lookup_remove_self _ _)]
    · simp [removeChunked, hv, Completion.proxyRes]

/-- `removeChunked` changes no upstream header other than `transfer-encoding`, and
`setConnection` none other than `connection`. -/
theorem passes_header_frame (req : IncomingMessage) (res : ServerResponse)
    (proxyRes : ProxyResponse) :
    (∀ k, k ≠ "transfer-encoding" →
      lookup k (removeChunked req res proxyRes).proxyRes.headers = lookup k proxyRes.headers) ∧
    (∀ k, k ≠ "connection" →
      lookup k (setConnection req res proxyRes).proxyRes.headers = lookup k proxyRes.headers) := by
  refine ⟨fun k hk => ?_, fun k hk => ?_⟩
  · by_cases hv : req.httpVersion = some "1.0"
    · simp [removeChunked, hv, Completion.proxyRes, lookup_remove_ne _ _ _ hk]
    · simp [removeChunked, hv, Completion.proxyRes]
  · unfold setConnection
    split
    · simp [Completion.proxyRes, lookup_assign_ne _ _ _ _ hk]
    · split
      · simp [Completion.proxyRes, lookup_assign_ne _ _ _ _ hk]
      · rfl

/-- C16: the frame of `removeChunked` and `setConnection`. `removeChunked` changes
nothing at all when `httpVersion` is not "1.0", and never an upstream header other
than `transfer-encoding`; `setConnection` changes no upstream header other than
`connection`; both return, and neither changes the upstream `statusCode` or anything
of the outgoing response (headers, status, calls received). The request is only
read: no pass returns a changed request. -/
theorem C16_removeChunked_setConnection_frame (req : IncomingMessage) (res : ServerResponse)
    (proxyRes : ProxyResponse) :
    (req.httpVersion ≠ some "1.0" → removeChunked req res proxyRes = .normal res proxyRes) ∧
    (∀ k, k ≠ "transfer-encoding" →
      lookup k (removeChunked req res proxyRes).proxyRes.headers = lookup k proxyRes.headers) ∧
    (∀ k, k ≠ "connection" →
      lookup k (setConnection req res proxyRes).proxyRes.headers = lookup k proxyRes.headers) ∧
    (removeChunked req res proxyRes).proxyRes.statusCode = proxyRes.statusCode ∧
    (setConnection req res proxyRes).proxyRes.statusCode = proxyRes.statusCode ∧
    (removeChunked req res proxyRes).res = res ∧
    (setConnection req res proxyRes).res = res ∧
    (removeChunked req res proxyRes).isNormal = true ∧
    (setConnection req res proxyRes).isNormal = true := by
  refine ⟨fun hv => by simp [removeChunked, hv], fun k hk => ?_, fun k hk => ?_, ?_, ?_, ?_, ?_,
    ?_, ?_⟩
  · by_cases hv : req.httpVersion = some "1.0"
    · simp [removeChunked, hv, Completion.proxyRes, lookup_remove_ne _ _ _ hk]
    · simp [removeChunked, hv, Completion.proxyRes]
  · unfold setConnection
    split
    · simp [Completion.proxyRes, lookup_assign_ne _ _ _ _ hk]
    · split
      · simp [Completion.proxyRes, lookup_assign_ne _ _ _ _ hk]
      · rfl
  all_goals first
    | (unfold removeChunked; split <;> rfl)
    | (unfold setConnection; split <;> [rfl; (split <;> rfl)])

/-- C16 (witness): an HTTP/1.1 request leaves a chunked upstream response as it is in
`removeChunked`. -/
theorem C16_witness :
    removeChunked ⟨some "1.1", []⟩ ⟨[], none, []⟩ ⟨200, [("transfer-encoding", .str "chunked")]⟩
      = .normal ⟨[], none, []⟩ ⟨200, [("transfer-encoding", .str "chunked")]⟩ :=
  (C16_removeChunked_setConnection_frame ⟨some "1.1", []⟩ ⟨[], none, []⟩
    ⟨200, [("transfer-encoding", .str "chunked")]⟩).1 (by decide)

/-! ## Absent inputs, the order of the cookies, and what is read of the request -/

/-- `writeHeaders` returns, without rewriting, when the request has no `host` header,
or no `x-forwarded-host` header, or the upstream response has no `set-cookie`
header. -/
theorem writeHeaders_returns_when_input_absent (ext : Extension) (req : IncomingMessage)
    (res : ServerResponse) (proxyRes : ProxyResponse)
    (h : lookup "host" req.headers = none ∨ lookup "x-forwarded-host" req.headers = none ∨
      lookup "set-cookie" proxyRes.headers = none) :
    writeHeaders ext req res proxyRes = .normal (copyHeaders res proxyRes.headers) proxyRes := by
  have hr : rewriteCookies ext req proxyRes = .ok proxyRes := by
    rcases h with h | h | h
    · unfold rewriteCookies
      rw [h]
    · exact rewriteCookies_no_target ext req proxyRes h
    · exact rewriteCookies_no_cookie ext req proxyRes h
  simp [writeHeaders, hr]

/-- With an absent `httpVersion`, `removeChunked` does nothing and `setConnection`
takes the branch of the versions other than "1.0". -/
theorem absent_httpVersion (req : IncomingMessage) (res : ServerResponse)
    (proxyRes : ProxyResponse) (h : req.httpVersion = none) :
    removeChunked req res proxyRes = .normal res proxyRes ∧
    (lookup "connection" proxyRes.headers = none →
      lookup "connection" (setConnection req res proxyRes).proxyRes.headers
        = some (.str (orElse (lookup "connection" req.headers) "keep-alive"))) := by
  constructor
  · simp [removeChunked, h]
  · intro hc
    simp [setConnection, h, hc, falsy, Completion.proxyRes, lookup_assign_self]

/-- `writeHeaders` throws only when the request has a non-empty `host` header and a
non-empty `x-forwarded-host` header and the upstream response has a non-empty
`set-cookie`: no absent input makes it throw. -/
theorem writeHeaders_throw_needs_all_present (ext : Extension) (req : IncomingMessage)
    (res : ServerResponse) (proxyRes : ProxyResponse)
    (h : (writeHeaders ext req res proxyRes).isNormal = false) :
    ∃ s t c, lookup "host" req.headers = some s ∧ s ≠ "" ∧
      lookup "x-forwarded-host" req.headers = some t ∧ t ≠ "" ∧
      lookup "set-cookie" proxyRes.headers = some c ∧ c.length ≠ 0 := by
  cases hs : lookup "host" req.headers with
  | none =>
    rw [writeHeaders_returns_when_input_absent ext req res proxyRes (Or.inl hs)] at h
    simp [Completion.isNormal] at h
  | some s =>
    cases ht : lookup "x-forwarded-host" req.headers with
    | none =>
      rw [writeHeaders_returns_when_input_absent ext req res proxyRes (Or.inr (Or.inl ht))] at h
      simp [Completion.isNormal] at h
    | some t =>
      cases hc : lookup "set-cookie" proxyRes.headers with
      | none =>
        rw [writeHeaders_returns_when_input_absent ext req res proxyRes
          (Or.inr (Or.inr hc))] at h
        simp [Completion.isNormal] at h
      | some c =>
        by_cases hg : s ≠ "" ∧ t ≠ "" ∧ c.length ≠ 0
        · exact ⟨s, t, c, rfl, hg.1, rfl, hg.2.1, rfl, hg.2.2⟩
        · have hr : rewriteCookies ext req proxyRes = .ok proxyRes := by
            simp only [rewriteCookies, hs, ht, hc]
            rw [if_neg hg]
          simp [writeHeaders, hr, Completion.isNormal] at h

/-- C14: no absent input makes a pass raise an error. `removeChunked`,
`setConnection` and `writeStatusCode` return for every request and upstream response,
whatever is absent. `writeHeaders` returns, without rewriting, when `host`,
`x-forwarded-host` or `set-cookie` is absent, and then the run of the four passes
returns too; it throws only when all three are present and non-empty. An absent
`httpVersion` is treated as a version other than "1.0": `removeChunked` does nothing
and `setConnection` takes the keep-alive branch. -/
theorem C14_absent_inputs_never_raise (ext : Extension) (req : IncomingMessage)
    (res : ServerResponse) (proxyRes : ProxyResponse) :
    (removeChunked req res proxyRes).isNormal = true ∧
    (setConnection req res proxyRes).isNormal = true ∧
    (writeStatusCode req res proxyRes).isNormal = true ∧
    ((lookup "host" req.headers = none ∨ lookup "x-forwarded-host" req.headers = none ∨
        lookup "set-cookie" proxyRes.headers = none) →
      writeHeaders ext req res proxyRes = .normal (copyHeaders res proxyRes.headers) proxyRes ∧
      (run ext req res proxyRes).isNormal = true) ∧
    ((writeHeaders ext req res proxyRes).isNormal = false →
      ∃ s t c, lookup "host" req.headers = some s ∧ s ≠ "" ∧
        lookup "x-forwarded-host" req.headers = some t ∧ t ≠ "" ∧
        lookup "set-cookie" proxyRes.headers = some c ∧ c.length ≠ 0) ∧
    (req.httpVersion = none →
      removeChunked req res proxyRes = .normal res proxyRes ∧
      setConnection req res proxyRes =
        (if falsy (lookup "connection" proxyRes.headers) then
          .normal res { proxyRes with
            headers := assign "connection"
              (HeaderValue.str (orElse (lookup "connection" req.headers) "keep-alive"))
              proxyRes.headers }
        else .normal res proxyRes) ∧
      (lookup "connection" proxyRes.headers = none → lookup "connection" req.headers = none →
        lookup "connection" (setConnection req res proxyRes).proxyRes.headers
          = some (.str "keep-alive"))) := by
  refine ⟨?_, ?_, rfl, fun habs => ⟨writeHeaders_returns_when_input_absent ext req res proxyRes
    habs, ?_⟩, writeHeaders_throw_needs_all_present ext req res proxyRes, fun hv => ⟨?_, ?_, ?_⟩⟩
  · unfold removeChunked
    split <;> rfl
  · unfold setConnection
    split <;> [rfl; (split <;> rfl)]
  · have habs2 : lookup "host" req.headers = none ∨
        lookup "x-forwarded-host" req.headers = none ∨
        lookup "set-cookie"
          (setConnection req res (removeChunked req res proxyRes).proxyRes).proxyRes.headers
          = none := by
      rcases habs with h | h | h
      · exact Or.inl h
      · exact Or.inr (Or.inl h)
      · refine Or.inr (Or.inr ?_)
        rw [(passes_header_frame req res _).2 "set-cookie" (by decide),
          (passes_header_frame req res proxyRes).1 "set-cookie" (by decide)]
        exact h
    rw [run_eq, writeHeaders_returns_when_input_absent ext req res _ habs2]
    rfl
  · exact (absent_httpVersion req res proxyRes hv).1
  · simp [setConnection, hv]
  · intro hc hrc
    have := (absent_httpVersion req res proxyRes hv).2 hc
    rw [this, hrc]
    rfl

/-- C14 (witness): a request without `httpVersion`, without `host` and without
`connection`, carrying `x-forwarded-host: (`; an upstream response with a cookie
only. Every pass returns. -/
theorem C14_witness :
    writeHeaders (fun _ => none) ⟨none, [("x-forwarded-host", "(")]⟩ ⟨[], none, []⟩
        ⟨200, [("set-cookie", .arr ["sid=1"])]⟩
      = .normal
          (copyHeaders ⟨[], none, []⟩ [("set-cookie", .arr ["sid=1"])])
          ⟨200, [("set-cookie", .arr ["sid=1"])]⟩ ∧
    (run (fun _ => none) ⟨none, [("x-forwarded-host", "(")]⟩ ⟨[], none, []⟩
      ⟨200, [("set-cookie", .arr ["sid=1"])]⟩).isNormal = true :=
  (C14_absent_inputs_never_raise (fun _ => none) ⟨none, [("x-forwarded-host", "(")]⟩
    ⟨[], none, []⟩ ⟨200, [("set-cookie", .arr ["sid=1"])]⟩).2.2.2.1 (Or.inl rfl)

/-- C15: for given `host` and `x-forwarded-host` values there is one function `f` on
strings such that, whatever the upstream response, a `set-cookie` array `xs` is the
array `xs.map f` after `writeHeaders`: it has the same length, and its entry at
index `i` is `f` of the original entry at index `i`. When `writeHeaders` returns,
that array is also the `set-cookie` of the outgoing response. -/
theorem C15_cookies_rewritten_entry_by_entry (ext : Extension) (source target : Option String) :
    ∃ f : String → String, ∀ (req : IncomingMessage) (res : ServerResponse)
      (proxyRes : ProxyResponse) (xs : List String),
      lookup "host" req.headers = source →
      lookup "x-forwarded-host" req.headers = target →
      lookup "set-cookie" proxyRes.headers = some (.arr xs) →
      lookup "set-cookie" (writeHeaders ext req res proxyRes).proxyRes.headers
        = some (.arr (xs.map f)) ∧
      (xs.map f).length = xs.length ∧
      (∀ i, (xs.map f).get? i = (xs.get? i).map f) ∧
      ((writeHeaders ext req res proxyRes).isNormal = true →
        lookup "set-cookie" (writeHeaders ext req res proxyRes).res.headers
          = some (.arr (xs.map f))) := by
  have key : ∀ (f : String → String),
      (∀ (req : IncomingMessage) (proxyRes : ProxyResponse) (xs : List String),
        lookup "host" req.headers = source →
        lookup "x-forwarded-host" req.headers = target →
        lookup "set-cookie" proxyRes.headers = some (.arr xs) →
        (∃ e, rewriteCookies ext req proxyRes = .error e ∧ xs.map f = xs) ∨
        (∃ p1, rewriteCookies ext req proxyRes = .ok p1 ∧
          lookup "set-cookie" p1.headers = some (.arr (xs.map f)))) →
      ∀ (req : IncomingMessage) (res : ServerResponse)
        (proxyRes : ProxyResponse) (xs : List String),
        lookup "host" req.headers = source →
        lookup "x-forwarded-host" req.headers = target →
        lookup "set-cookie" proxyRes.headers = some (.arr xs) →
        lookup "set-cookie" (writeHeaders ext req res proxyRes).proxyRes.headers
          = some (.arr (xs.map f)) ∧
        (xs.map f).length = xs.length ∧
        (∀ i, (xs.map f).get? i = (xs.get? i).map f) ∧
        ((writeHeaders ext req res proxyRes).isNormal = true →
          lookup "set-cookie" (writeHeaders ext req res proxyRes).res.headers
            = some (.arr (xs.map f))) := by
    intro f hf req res proxyRes xs hs ht hc
    refine ⟨?_, by simp, fun i => by simp, ?_⟩
    · rcases hf req proxyRes xs hs ht hc with ⟨e, he, hid⟩ | ⟨p1, hp1, hl⟩
      · simp [writeHeaders, he, Completion.proxyRes, hc, hid]
      · simp [writeHeaders, hp1, Completion.proxyRes, hl]
    · rcases hf req proxyRes xs hs ht hc with ⟨e, he, hid⟩ | ⟨p1, hp1, hl⟩
      · simp [writeHeaders, he, Completion.isNormal]
      · intro _
        simp [writeHeaders, hp1, Completion.res, copyHeaders_lookup, hl]
  have keep : ∀ (req : IncomingMessage) (proxyRes : ProxyResponse) (xs : List String),
      rewriteCookies ext req proxyRes = .ok proxyRes →
      lookup "set-cookie" proxyRes.headers = some (.arr xs) →
      (∃ e, rewriteCookies ext req proxyRes = .error e ∧ xs.map id = xs) ∨
      (∃ p1, rewriteCookies ext req proxyRes = .ok p1 ∧
        lookup "set-cookie" p1.headers = some (.arr (xs.map id))) := by
    intro req proxyRes xs hr hc
    exact Or.inr ⟨proxyRes, hr, by simpa using hc⟩
  cases source with
  | none =>
    refine ⟨id, key id (fun req proxyRes xs hs _ hc => keep req proxyRes xs ?_ hc)⟩
    unfold rewriteCookies
    rw [hs]
  | some s =>
    cases target with
    | none =>
      exact ⟨id, key id (fun req proxyRes xs _ ht hc =>
        keep req proxyRes xs (rewriteCookies_no_target ext req proxyRes ht) hc)⟩
    | some t =>
      by_cases hg : s ≠ "" ∧ t ≠ ""
      · cases hre : newRegExp ext (stripPort t) with
        | error e =>
          refine ⟨id, key id (fun req proxyRes xs hs ht hc => ?_)⟩
          by_cases hx : xs.length = 0
          · refine keep req proxyRes xs ?_ hc
            simp [rewriteCookies, hs, ht, hc, HeaderValue.length, hx]
          · left
            refine ⟨e, ?_, by simp⟩
            simp [rewriteCookies, hs, ht, hc, HeaderValue.length, hx, hg.1, hg.2, hre]
        | ok re =>
          refine ⟨fun c => re.replaceIn c (stripPort s),
            key _ (fun req proxyRes xs hs ht hc => ?_)⟩
          right
          by_cases hx : xs.length = 0
          · refine ⟨proxyRes, ?_, ?_⟩
            · simp [rewriteCookies, hs, ht, hc, HeaderValue.length, hx]
            · rw [List.length_eq_zero.mp hx] at hc ⊢
              simpa using hc
          · refine ⟨{ proxyRes with
              headers := assign "set-cookie"
                (HeaderValue.arr (xs.map (fun c => re.replaceIn c (stripPort s))))
                proxyRes.headers }, ?_, lookup_assign_self _ _ _⟩
            simp [rewriteCookies, hs, ht, hc, HeaderValue.length, hx, hg.1, hg.2, hre,
              rewriteLoop_eq_map]
      · refine ⟨id, key id (fun req proxyRes xs hs ht hc => keep req proxyRes xs ?_ hc)⟩
        simp only [rewriteCookies, hs, ht, hc]
        rw [if_neg (fun h => hg ⟨h.1, h.2.1⟩)]

/-- C15 (witness): the function for `host: example.com` and
`x-forwarded-host: backend`. -/
theorem C15_witness :
    ∃ f : String → String, ∀ (req : IncomingMessage) (res : ServerResponse)
      (proxyRes : ProxyResponse) (xs : List String),
      lookup "host" req.headers = some "example.com" →
      lookup "x-forwarded-host" req.headers = some "backend" →
      lookup "set-cookie" proxyRes.headers = some (.arr xs) →
      lookup "set-cookie" (writeHeaders (fun _ => none) req res proxyRes).proxyRes.headers
        = some (.arr (xs.map f)) ∧
      (xs.map f).length = xs.length ∧
      (∀ i, (xs.map f).get? i = (xs.get? i).map f) ∧
      ((writeHeaders (fun _ => none) req res proxyRes).isNormal = true →
        lookup "set-cookie" (writeHeaders (fun _ => none) req res proxyRes).res.headers
          = some (.arr (xs.map f))) :=
  C15_cookies_rewritten_entry_by_entry (fun _ => none) (some "example.com") (some "backend")

/-- After `setConnection` the upstream response has a `connection` header; when that
header was absent or a string before, it is a non-empty string afterwards. (An
array under `connection`, which the HTTP parser does not produce, is left alone.) -/
theorem setConnection_connection_nonempty (req : IncomingMessage) (res : ServerResponse)
    (proxyRes : ProxyResponse)
    (hstr : ∀ xs, lookup "connection" proxyRes.headers ≠ some (.arr xs)) :
    ∃ v, lookup "connection" (setConnection req res proxyRes).proxyRes.headers
      = some (.str v) ∧ v ≠ "" := by
  by_cases hv : req.httpVersion = some "1.0"
  · refine ⟨orElse (lookup "connection" req.headers) "close", ?_,
      orElse_ne_empty _ _ (by decide)⟩
    simp [setConnection, hv, Completion.proxyRes, lookup_assign_self]
  · by_cases hf : falsy (lookup "connection" proxyRes.headers) = true
    · refine ⟨orElse (lookup "connection" req.headers) "keep-alive", ?_,
        orElse_ne_empty _ _ (by decide)⟩
      simp only [setConnection, hv, ↓reduceIte, hf, Completion.proxyRes, lookup_assign_self]
    · have h1 : setConnection req res proxyRes = .normal res proxyRes := by
        simp only [setConnection, hv, ↓reduceIte, hf, Bool.false_eq_true]
      rw [h1]
      cases hl : lookup "connection" proxyRes.headers with
      | none => simp [hl, falsy] at hf
      | some x =>
        cases x with
        | arr xs => exact absurd hl (hstr xs)
        | str v =>
          refine ⟨v, by simp [Completion.proxyRes, hl], ?_⟩
          intro hv0
          simp [hl, falsy, HeaderValue.truthy, hv0] at hf

/-- When a run of the four passes returns, the `connection` header that
`setConnection` left on the upstream response is on the outgoing response. -/
theorem run_normal_connection (ext : Extension) (req : IncomingMessage)
    (res res1 : ServerResponse) (proxyRes proxyRes1 : ProxyResponse)
    (h : run ext req res proxyRes = .normal res1 proxyRes1) (v : HeaderValue)
    (hv : lookup "connection"
      (setConnection req res (removeChunked req res proxyRes).proxyRes).proxyRes.headers
      = some v) :
    lookup "connection" res1.headers = some v := by
  rw [run_eq] at h
  unfold writeHeaders at h
  cases hr : rewriteCookies ext req
      (setConnection req res (removeChunked req res proxyRes).proxyRes).proxyRes with
  | error e => simp [hr] at h
  | ok rewritten =>
    simp only [hr, Completion.normal.injEq] at h
    obtain ⟨h1, h2⟩ := h
    subst h1 h2
    have hk := rewriteCookies_lookup_ne ext req _ rewritten hr "connection" (by decide)
    simp [ServerResponse.writeHead, copyHeaders_lookup, hk, hv]

/-- C18 (failing input): an HTTP/1.1 request with `connection: keep-alive` and
`x-forwarded-host: *`, an upstream response with `connection: close` and a cookie.
After `setConnection` the upstream `connection` header is the non-empty string
"close"; but `writeHeaders` throws on the target `*`, and the run ends with no
`connection` header on the outgoing response. -/
theorem C18_connection_missing_when_target_invalid (ext : Extension) :
    lookup "connection"
      (setConnection
        ⟨some "1.1", [("host", "example.com"), ("connection", "keep-alive"),
          ("x-forwarded-host", "*")]⟩
        ⟨[], none, []⟩
        ⟨200, [("connection", .str "close"), ("set-cookie", .arr ["sid=1"])]⟩).proxyRes.headers
      = some (.str "close") ∧
    run ext
        ⟨some "1.1", [("host", "example.com"), ("connection", "keep-alive"),
          ("x-forwarded-host", "*")]⟩
        ⟨[], none, []⟩
        ⟨200, [("connection", .str "close"), ("set-cookie", .arr ["sid=1"])]⟩
      = .throw .syntaxError ⟨[], none, []⟩
          ⟨200, [("connection", .str "close"), ("set-cookie", .arr ["sid=1"])]⟩ ∧
    lookup "connection"
      (run ext
        ⟨some "1.1", [("host", "example.com"), ("connection", "keep-alive"),
          ("x-forwarded-host", "*")]⟩
        ⟨[], none, []⟩
        ⟨200, [("connection", .str "close"),
          ("set-cookie", .arr ["sid=1"])]⟩).res.headers = none := by
  refine ⟨rfl, rfl, rfl⟩

/-- C20: a run of the four passes reads the request only through `httpVersion` and
the `host`, `x-forwarded-host` and `connection` headers: two requests that agree on
these give the same completion (same upstream response, same outgoing response
with its headers, status and calls, same exception if any). When the upstream
response has no `set-cookie` header, agreement on `httpVersion` and `connection` is
enough. -/
theorem C20_run_reads_four_items (ext : Extension) (req1 req2 : IncomingMessage)
    (res : ServerResponse) (proxyRes : ProxyResponse)
    (hv : req1.httpVersion = req2.httpVersion)
    (hc : lookup "connection" req1.headers = lookup "connection" req2.headers) :
    (lookup "host" req1.headers = lookup "host" req2.headers →
      lookup "x-forwarded-host" req1.headers = lookup "x-forwarded-host" req2.headers →
      run ext req1 res proxyRes = run ext req2 res proxyRes) ∧
    (lookup "set-cookie" proxyRes.headers = none →
      run ext req1 res proxyRes = run ext req2 res proxyRes) := by
  have h1 : removeChunked req1 res proxyRes = removeChunked req2 res proxyRes := by
    simp [removeChunked, hv]
  have h2 : ∀ p, setConnection req1 res p = setConnection req2 res p := by
    intro p
    simp [setConnection, hv, hc]
  rw [run_eq, run_eq, h1, h2]
  constructor
  · intro hh hx
    have h3 : ∀ p, writeHeaders ext req1 res p = writeHeaders ext req2 res p := by
      intro p
      simp [writeHeaders, rewriteCookies, hh, hx]
    rw [h3]
  · intro hn
    have hn2 : lookup "set-cookie"
        (setConnection req2 res (removeChunked req2 res proxyRes).proxyRes).proxyRes.headers
        = none := by
      rw [(passes_header_frame req2 res _).2 "set-cookie" (by decide),
        (passes_header_frame req2 res proxyRes).1 "set-cookie" (by decide)]
      exact hn
    rw [writeHeaders_returns_when_input_absent ext req1 res _ (Or.inr (Or.inr hn2)),
      writeHeaders_returns_when_input_absent ext req2 res _ (Or.inr (Or.inr hn2))]

/-- C20 (witness): two requests that differ in `user-agent` only. -/
theorem C20_witness :
    run (fun _ => none)
        ⟨some "1.1", [("host", "example.com"), ("user-agent", "a"),
          ("x-forwarded-host", "backend.internal")]⟩
        ⟨[], none, []⟩ ⟨200, [("set-cookie", .arr ["sid=1; Domain=backend.internal"])]⟩
      = run (fun _ => none)
        ⟨some "1.1", [("user-agent", "b"), ("host", "example.com"),
          ("x-forwarded-host", "backend.internal")]⟩
        ⟨[], none, []⟩ ⟨200, [("set-cookie", .arr ["sid=1; Domain=backend.internal"])]⟩ :=
  (C20_run_reads_four_items (fun _ => none)
    ⟨some "1.1", [("host", "example.com"), ("user-agent", "a"),
      ("x-forwarded-host", "backend.internal")]⟩
    ⟨some "1.1", [("user-agent", "b"), ("host", "example.com"),
      ("x-forwarded-host", "backend.internal")]⟩
    ⟨[], none, []⟩ ⟨200, [("set-cookie", .arr ["sid=1; Domain=backend.internal"])]⟩
    rfl rfl).1 rfl rfl

/-! ## The port suffix -/

namespace RegExp

theorem digit_mem_eq (ch : Char) : ClassItem.mem ch .digit = ch.isDigit := by
  have h0 : '0'.toNat = 48 := by decide
  have h9 : '9'.toNat = 57 := by decide
  unfold ClassItem.mem
  rw [h0, h9]
  unfold Char.isDigit Char.toNat
  simp only [ge_iff_le, UInt32.le_def, BitVec.le_def]
  rfl

theorem digit_ends (x : MState) :
    (Node.cls false [ClassItem.digit]).ends x = oneChar Char.isDigit x := by
  have : (fun ch => [ClassItem.digit].any (ClassItem.mem ch) != false) = Char.isDigit := by
    funext ch
    simp [digit_mem_eq]
  simp only [Node.ends, this]

theorem eol_ends (y : MState) :
    (Node.seq .eol .empty).ends y = if y.rest = [] then [y] else [] := by
  by_cases h : y.rest = [] <;> simp [Node.ends, h]

/-- Digits up to the end of the input: the repeat matcher for `\d*` followed by `$`
ends in one state, at the end, when only digits are left, and in none otherwise. -/
theorem digits_then_end (t : List Char) :
    ∀ (fuel j : Nat), t.length < fuel →
      (repeatMatcher (Node.cls false [ClassItem.digit]).ends 0 0 true fuel 0 none
          ⟨j, t, []⟩).flatMap (Node.seq .eol .empty).ends
        = if t.all Char.isDigit then [⟨j + t.length, [], []⟩] else [] := by
  induction t with
  | nil =>
    intro fuel j hf
    cases fuel with
    | zero => omega
    | succ f =>
      simp [repeatMatcher, digit_ends, oneChar, clearCaptures, eol_ends]
  | cons c t ih =>
    intro fuel j hf
    cases fuel with
    | zero => omega
    | succ f =>
      have hf' : t.length < f := by simpa using hf
      have hih := ih f (j + 1) hf'
      by_cases hc : c.isDigit = true
      · rw [repeatMatcher]
        simp only [digit_ends, oneChar, clearCaptures, hc, ↓reduceIte, List.filter_nil,
          List.flatMap_cons, List.flatMap_nil, List.append_nil, Nat.zero_sub,
          Option.map_none', reduceCtorEq, ne_eq, not_true_eq_false, true_and,
          Nat.add_right_eq_self, one_ne_zero, List.flatMap_append, hih, eol_ends,
          List.all_cons, Bool.true_and, List.length_cons]
        simp [Nat.add_assoc, Nat.add_comm 1]
      · rw [repeatMatcher]
        simp [digit_ends, oneChar, clearCaptures, hc, eol_ends]

/-- The pattern `/:\d+$/` matches at a position exactly when a colon and then only
digits, at least one, are left; the match reaches the end of the input. -/
theorem matchAt_portRe (i : Nat) (rest : List Char) :
    matchAt portRe i rest =
      match rest with
      | [] => none
      | c :: t =>
        if c = ':' ∧ t ≠ [] ∧ t.all Char.isDigit = true then
          some ⟨i + 1 + t.length, [], []⟩
        else none := by
  cases rest with
  | nil => simp [matchAt, portRe, Node.ends, oneChar]
  | cons c t =>
    by_cases hc : c = ':'
    · subst hc
      have hseq : portRe.ends ⟨i, ':' :: t, []⟩ =
          ((Node.rep 1 none true 0 0 (.cls false [.digit])).ends ⟨i + 1, t, []⟩).flatMap
            (Node.seq .eol .empty).ends := by
        simp [portRe, Node.ends, oneChar]
      unfold matchAt
      rw [hseq]
      cases t with
      | nil =>
        simp [Node.ends, repeatMatcher, digit_ends, oneChar, clearCaptures]
      | cons d t =>
        by_cases hd : d.isDigit = true
        · have hfuel := digits_then_end t (1 + (d :: t).length) (i + 1 + 1)
            (by simp; omega)
          have hrep : (Node.rep 1 none true 0 0 (.cls false [.digit])).ends ⟨i + 1, d :: t, []⟩
              = repeatMatcher (Node.cls false [ClassItem.digit]).ends 0 0 true
                  (1 + (d :: t).length) 0 none ⟨i + 1 + 1, t, []⟩ := by
            simp only [Node.ends]
            rw [repeatMatcher]
            simp [oneChar, clearCaptures, hd, digit_mem_eq]
          rw [hrep, hfuel]
          by_cases hall : t.all Char.isDigit = true
          · simp [hall, hd]
            omega
          · simp [hall, hd]
        · simp only [Node.ends]
          rw [repeatMatcher]
          simp [oneChar, clearCaptures, hd, digit_mem_eq]
    · simp [matchAt, portRe, Node.ends, oneChar, hc]

/-- A colon and digits at the end of the input are removed. -/
theorem replaceFirst_portRe_suffix (p d : List Char) (hd : d ≠ [])
    (hall : d.all Char.isDigit = true) :
    ∀ before, replaceFirst portRe 0 [] before (p ++ ':' :: d) = p := by
  induction p with
  | nil =>
    intro before
    simp [replaceFirst, matchAt_portRe, hd, hall, replacement, getSubstitution]
  | cons c t ih =>
    intro before
    have hnot : (t ++ ':' :: d).all Char.isDigit = false := by
      simp only [List.all_append, List.all_cons]
      have : (':' : Char).isDigit = false := by decide
      simp [this]
    simp [replaceFirst, matchAt_portRe, hnot, ih]

/-- An input that does not end in a colon and digits is left as it is. -/
theorem replaceFirst_portRe_other (s : List Char) :
    ∀ before, (¬ ∃ p d, d ≠ [] ∧ d.all Char.isDigit = true ∧ s = p ++ ':' :: d) →
      replaceFirst portRe 0 [] before s = s := by
  induction s with
  | nil =>
    intro before _
    simp [replaceFirst, matchAt_portRe]
  | cons c t ih =>
    intro before hno
    have hfire : ¬ (c = ':' ∧ t ≠ [] ∧ t.all Char.isDigit = true) := by
      rintro ⟨h1, h2, h3⟩
      exact hno ⟨[], t, h2, h3, by simp [h1]⟩
    have ht : ¬ ∃ p d, d ≠ [] ∧ d.all Char.isDigit = true ∧ t = p ++ ':' :: d := by
      rintro ⟨p, d, h1, h2, h3⟩
      exact hno ⟨c :: p, d, h1, h2, by simp [h3]⟩
    simp only [replaceFirst, matchAt_portRe, hfire, ↓reduceIte, ih _ ht]

end RegExp

theorem toList_ne_nil_of_ne_empty (d : String) (h : d ≠ "") : d.toList ≠ [] := by
  intro hd
  apply h
  cases d with
  | mk data =>
    simp only [String.toList] at hd
    subst hd
    rfl

/-- A colon followed by digits only is stripped to the empty string. -/
theorem stripPort_port_only (digits : String) (hd : digits ≠ "")
    (hall : digits.toList.all Char.isDigit = true) : stripPort (":" ++ digits) = "" := by
  have hl : (":" ++ digits).toList = [] ++ ':' :: digits.toList := by
    simp [String.toList, String.data_append]
  unfold stripPort
  rw [hl, RegExp.replaceFirst_portRe_suffix _ _ (toList_ne_nil_of_ne_empty digits hd) hall]

set_option maxRecDepth 100000 in
/-- C17: the port stripping of `writeHeaders`, `host.replace(/:\d+$/, '')`, against
the reference: a string `p ++ ":" ++ d`, with `d` a non-empty run of ASCII decimal
digits, becomes `p`; any string that is not of this form is returned unchanged (no
colon, a colon followed by no digit, a non-digit after the last colon). Only the one
trailing suffix is removed: "a:1:2" becomes "a:1". -/
theorem C17_stripPort_reference :
    (∀ p d : String, d ≠ "" → d.toList.all Char.isDigit = true →
      stripPort (p ++ ":" ++ d) = p) ∧
    (∀ s : String,
      (¬ ∃ p d : String, d ≠ "" ∧ d.toList.all Char.isDigit = true ∧ s = p ++ ":" ++ d) →
      stripPort s = s) ∧
    stripPort "a:1:2" = "a:1" ∧
    stripPort "example.com" = "example.com" ∧
    stripPort "example.com:" = "example.com:" ∧
    stripPort "example.com:80a" = "example.com:80a" ∧
    stripPort "[::1]:8080" = "[::1]" := by
  refine ⟨fun p d hd hall => ?_, fun s hno => ?_, by decide, by decide, by decide, by decide,
    by decide⟩
  · have hl : (p ++ ":" ++ d).toList = p.toList ++ ':' :: d.toList := by
      simp [String.toList, String.data_append]
    unfold stripPort
    rw [hl, RegExp.replaceFirst_portRe_suffix _ _ (toList_ne_nil_of_ne_empty d hd) hall]
    rfl
  · have hlist : ¬ ∃ p d, d ≠ [] ∧ d.all Char.isDigit = true ∧ s.toList = p ++ ':' :: d := by
      rintro ⟨p, d, h1, h2, h3⟩
      refine hno ⟨String.mk p, String.mk d, ?_, h2, ?_⟩
      · intro h
        apply h1
        have := congrArg String.toList h
        simpa using this
      · apply String.ext
        simp only [String.toList] at h3
        simp [String.data_append, h3]
    unfold stripPort
    rw [RegExp.replaceFirst_portRe_other _ _ hlist]
    rfl

/-! ## A target that is only a port suffix -/

theorem substitute_empty_target (source : List Char) (s : List Char) :
    substitute [] source 0 s = s.flatMap (fun ch => source ++ [ch]) ++ source := by
  induction s with
  | nil => simp [substitute]
  | cons c t ih => simp [substitute, ih]

/-- For a target that is only a port suffix and a source without `$`, the rewriting
runs with an empty pattern: the port-stripped source is put before every character
of each cookie and at its end, which makes a cookie of length `n` one of length
`n + (n + 1) * |source|`. -/
theorem writeHeaders_port_only_target (ext : Extension) (req : IncomingMessage)
    (res : ServerResponse) (proxyRes : ProxyResponse) (source digits : String)
    (xs : List String)
    (hs : lookup "host" req.headers = some source) (hs0 : source ≠ "")
    (ht : lookup "x-forwarded-host" req.headers = some (":" ++ digits))
    (hd : digits ≠ "") (hall : digits.toList.all Char.isDigit = true)
    (hc : lookup "set-cookie" proxyRes.headers = some (.arr xs)) (hxs : xs ≠ [])
    (hdollar : '$' ∉ (stripPort source).toList) :
    stripPort (":" ++ digits) = "" ∧
    lookup "set-cookie" (writeHeaders ext req res proxyRes).proxyRes.headers
      = some (.arr (xs.map (fun c =>
          String.mk (c.toList.flatMap (fun ch => (stripPort source).toList ++ [ch])
            ++ (stripPort source).toList)))) ∧
    ∀ c ∈ xs,
      (String.mk (c.toList.flatMap (fun ch => (stripPort source).toList ++ [ch])
        ++ (stripPort source).toList)).length
        = c.length + (c.length + 1) * (stripPort source).length := by
  have hstrip : stripPort (":" ++ digits) = "" := by
    have h := (stripPort_port_only digits hd hall)
    exact h
  have hne : (":" ++ digits : String) ≠ "" := by
    intro h
    have := congrArg String.length h
    simp only [String.length_append] at this
    have h1 : (":" : String).length = 1 := by decide
    have h0 : ("" : String).length = 0 := by decide
    omega
  have hlit : ∀ c ∈ (stripPort (":" ++ digits)).toList, RegExp.isSyntaxChar c = false := by
    rw [hstrip]
    intro c hcm
    simp at hcm
  have h := rewriteCookies_literal ext req proxyRes source (":" ++ digits) xs hs ht hc hs0 hne
    hxs hlit hdollar
  refine ⟨hstrip, ?_, ?_⟩
  · simp only [writeHeaders, h, Completion.proxyRes, lookup_assign_self, hstrip]
    congr 2
    apply List.map_congr_left
    intro c _
    simp [replaceLiteral, substitute_empty_target]
  · intro c _
    have hlen : ∀ (src l : List Char),
        (l.flatMap (fun ch => src ++ [ch])).length = l.length * (src.length + 1) := by
      intro src l
      induction l with
      | nil => simp
      | cons a t ih => simp [List.flatMap_cons, ih, Nat.succ_mul]; omega
    simp only [String.length, List.length_append, hlen, String.toList]
    rw [Nat.add_mul, Nat.mul_add]
    omega

set_option maxRecDepth 100000 in
/-- C19 (failing input): a request with `host: $$` and `x-forwarded-host: :8080`, an
upstream response with the cookie `ab`. The guard passes on the raw values, the
stripped target is empty and the rewriting runs; but the source is the replacement
text of `replace`, where `$$` stands for one `$`: the cookie becomes `$a$b$`, of
length 5, and not `$$a$$b$$` of length 2 + (2 + 1) * 2 = 8. -/
theorem C19_source_is_a_replacement_template (ext : Extension) :
    stripPort ":8080" = "" ∧
    stripPort "$$" = "$$" ∧
    lookup "set-cookie"
      (writeHeaders ext ⟨some "1.1", [("host", "$$"), ("x-forwarded-host", ":8080")]⟩
        ⟨[], none, []⟩ ⟨200, [("set-cookie", .arr ["ab"])]⟩).proxyRes.headers
      = some (.arr ["$a$b$"]) ∧
    ("$a$b$" : String).length = 5 ∧
    ("ab" : String).length + (("ab" : String).length + 1) * (stripPort "$$").length = 8 := by
  refine ⟨by decide, by decide, rfl, by decide, by decide⟩

end WebOutgoing
